import Mathlib

/-!
Verification of the regex-driven lexical tokenizer engine underlying the
Pygments lexer definitions in `pygments/lexers/rdf.py` and
`pygments/lexers/webmisc.py`.

The repository sources contain only the per-language lexer *tables* (ordered
per-state rule lists) and the XQuery callback functions; the driving engine
(`pygments/lexer.py`, classes `RegexLexer` / `ExtendedRegexLexer`) is not part
of the sources, so the engine below is modelled from the specification's
component design (engine loop, default transitions, error fragments, grouped
emission, sub-lexer delegation, callback hooks).  The tables and the XQuery
callbacks are translated directly from the repository sources.
-/

set_option maxRecDepth 10000

namespace PygModel

/-- Token kinds used by the embedded tables.  The source taxonomy is
hierarchical; here each kind that actually occurs in the embedded tables is a
distinct constructor, compared only by equality as the specification
requires. -/
inductive Tok where
  | text
  | whitespace
  | error
  | keyword
  | keywordPseudo
  | nameTok
  | nameVariable
  | nameTag
  | nameAttribute
  | nameFunction
  | nameNamespace
  | nameLabel
  | nameOther
  | litTok
  | strTok
  | strDouble
  | strSingle
  | strDoc
  | numFloat
  | numInteger
  | opTok
  | opWord
  | punct
  | comment
  | commentMultiline
deriving DecidableEq, Repr

/-- Fragment: (start offset, token kind, text slice), the engine's unit of
output. -/
structure Fragment where
  start : Nat
  kind : Tok
  text : List Char
deriving DecidableEq, Repr

/-- Matching flags of a table (the source sets them per lexer class:
`re.IGNORECASE`, `re.DOTALL`, `re.MULTILINE`). -/
structure Flags where
  ignorecase : Bool := false
  dotall : Bool := false
deriving DecidableEq, Repr

/-- Regex abstract syntax, sufficient for the patterns of the embedded
tables: character classes (with negation), literals, concatenation,
prioritized alternation, greedy and lazy star, capturing groups, lookahead
and word boundary. -/
inductive Regex where
  | eps
  | cls (neg : Bool) (p : Char → Bool)
  | lit (s : List Char)
  | cat (a b : Regex)
  | alt (a b : Regex)
  | star (a : Regex)
  | starL (a : Regex)
  | grp (n : Nat) (a : Regex)
  | look (a : Regex)
  | wordB

/-- Candidate match result: an end position plus captured group spans
(group index, start, stop). -/
structure MRes where
  stop : Nat
  groups : List (Nat × Nat × Nat)
deriving DecidableEq, Repr

/-- Case-insensitive-aware character comparison, as Python's `re` applies a
table-level `IGNORECASE` flag. -/
def chEq (fl : Flags) (pat c : Char) : Bool :=
  if fl.ignorecase then pat.toLower = c.toLower else pat = c

/-- Class membership test honouring `IGNORECASE` and class negation. -/
def clsMatches (fl : Flags) (neg : Bool) (p : Char → Bool) (c : Char) : Bool :=
  let base := if fl.ignorecase then p c || p c.toLower || p c.toUpper else p c
  if neg then !base else base

/-- Literal string match at a position (each character compared under the
table's flags). -/
def litAt (fl : Flags) (inp : List Char) : List Char → Nat → Bool
  | [], _ => true
  | c :: cs, i =>
      match inp[i]? with
      | some d => chEq fl c d && litAt fl inp cs (i + 1)
      | none => false

/-- Python's `\w` for the ASCII inputs considered here. -/
def isWordChar (c : Char) : Bool := c.isAlpha || c.isDigit || c = '_'

/-- Word boundary (`\b`) test at a position. -/
def wordBoundaryAt (inp : List Char) (i : Nat) : Bool :=
  let before := match i with
    | 0 => false
    | j + 1 => match inp[j]? with
      | some c => isWordChar c
      | none => false
  let after := match inp[i]? with
    | some c => isWordChar c
    | none => false
  before != after

/-- Combine a first-iteration result with the result of the remaining
iterations (concatenating captured groups). -/
def mcomb (r1 r2 : MRes) : MRes := ⟨r2.stop, r1.groups ++ r2.groups⟩

/-- Iterated matching for `star`/`starL`, given the candidate matcher `m`
of the star's body.  Each iteration must consume at least one character
(Python stops repeating on an empty-width iteration); the iteration budget
`k` is seeded with `inp.length + 1`, which repetitions that each consume
input can never exhaust, so the enumeration is exact. -/
def starIter (m : Nat → List MRes) (lazy : Bool) : Nat → Nat → List MRes
  | 0, i => [⟨i, []⟩]
  | k + 1, i =>
      let more :=
        ((m i).filter (fun r => i < r.stop)).flatMap fun r =>
          (starIter m lazy k r.stop).map fun r2 => mcomb r r2
      if lazy then ⟨i, []⟩ :: more else more ++ [⟨i, []⟩]

/-- Candidate matches of a regex at a position, in backtracking priority
order (leftmost alternative first, greedy star longest first, lazy star
shortest first).  The head of the list is the match Python's backtracking
`re.match` anchored at the position would return. -/
def mlist (fl : Flags) (inp : List Char) : Regex → Nat → List MRes
  | .eps, i => [⟨i, []⟩]
  | .cls neg p, i =>
      match inp[i]? with
      | some c => if clsMatches fl neg p c then [⟨i + 1, []⟩] else []
      | none => []
  | .lit s, i => if litAt fl inp s i then [⟨i + s.length, []⟩] else []
  | .cat a b, i =>
      (mlist fl inp a i).flatMap fun r =>
        (mlist fl inp b r.stop).map fun r2 => mcomb r r2
  | .alt a b, i => mlist fl inp a i ++ mlist fl inp b i
  | .star a, i =>
      starIter (fun j => mlist fl inp a j) false (inp.length + 1) i
  | .starL a, i =>
      starIter (fun j => mlist fl inp a j) true (inp.length + 1) i
  | .grp n a, i =>
      (mlist fl inp a i).map fun r => ⟨r.stop, (n, i, r.stop) :: r.groups⟩
  | .look a, i =>
      match mlist fl inp a i with
      | [] => []
      | r :: _ => [⟨i, r.groups⟩]
  | .wordB, i => if wordBoundaryAt inp i then [⟨i, []⟩] else []

/-- Match data handed to actions and callbacks: overall span plus group
spans. -/
structure MatchData where
  start : Nat
  stop : Nat
  groups : List (Nat × Nat × Nat)
deriving DecidableEq, Repr

/-- Anchored match at a position: the highest-priority candidate, if any
(the behaviour of `pattern.match(text, pos)`). -/
def Regex.matchAt (r : Regex) (fl : Flags) (inp : List Char) (pos : Nat) :
    Option MatchData :=
  match mlist fl inp r pos with
  | [] => none
  | m :: _ => some ⟨pos, m.stop, m.groups⟩

/-- Span of capture group `k` of a match (groups the pattern did not bind
default to an empty span, a case the embedded tables never exercise). -/
def grpSpan (m : MatchData) (k : Nat) : Nat × Nat :=
  match m.groups.find? (fun g => g.1 = k) with
  | some g => (g.2.1, g.2.2)
  | none => (m.stop, m.stop)

/-- Text slice `[s, e)` of the input. -/
def slice (inp : List Char) (s e : Nat) : List Char := (inp.take e).drop s

/-- Text of capture group `k` of a match. -/
def gslice (inp : List Char) (m : MatchData) (k : Nat) : List Char :=
  slice inp (grpSpan m k).1 (grpSpan m k).2

/-- Concatenation of the text slices of a fragment list, in emission
order. -/
def joinTexts (fs : List Fragment) : List Char :=
  (fs.map Fragment.text).flatten

/-- State transition of a rule: push a sequence of state names (a single
push or a tuple in the source), duplicate the top (`#push`), or pop `n`
states (`#pop`, `#pop:n`). -/
inductive Transition where
  | pushN (ss : List String)
  | pushSelf
  | popN (n : Nat)
deriving DecidableEq, Repr

/-- Application of an optional transition to the state-name stack (head of
the list is the top of the stack).  Modelled from the spec: a pop reaching
deeper than the stack falls back to the designated root state instead of
crashing (§7(b)). -/
def applyTrans : Option Transition → List String → List String
  | none, st => st
  | some (.pushN ss), st => ss.reverse ++ st
  | some .pushSelf, st => st.headD ("root") :: st
  | some (.popN n), st =>
      let r := st.drop n
      if r.isEmpty then [("root")] else r

/-! ### The delegate engine

Sub-lexer delegation (`using(...)` in the source rules) hands a matched
region to an independently constructed nested lexer.  The nested lexers the
embedded tables delegate to are plain rule tables without callbacks or
further delegation, modelled by `SimpleTable`. -/

/-- Action of a delegate-table rule: emit the whole match as one kind, or
one fragment per capture group. -/
inductive SimpleAction where
  | tok (k : Tok)
  | byGroups (ks : List Tok)
deriving Repr

/-- Rule of a delegate table. -/
structure SimpleRule where
  pattern : Regex
  action : SimpleAction
  trans : Option Transition

/-- State of a delegate table: ordered rules plus optional default
transition. -/
structure SimpleState where
  rules : List SimpleRule
  dflt : Option Transition

/-- Delegate lexer table. -/
structure SimpleTable where
  flags : Flags
  states : List (String × SimpleState)

/-- Context of a delegate run: cursor and state-name stack. -/
structure SCtx where
  pos : Nat
  stack : List String
deriving DecidableEq, Repr

/-- First rule of a rule sequence whose pattern matches at the cursor
(declaration order, first match wins). -/
def sFirstMatch (fl : Flags) (inp : List Char) (pos : Nat) :
    List SimpleRule → Option (SimpleRule × MatchData)
  | [] => none
  | r :: rs =>
      match r.pattern.matchAt fl inp pos with
      | some m => some (r, m)
      | none => sFirstMatch fl inp pos rs

/-- State lookup; a state name absent from the table behaves as an empty
state. -/
def sLookup (t : SimpleTable) (s : String) : SimpleState :=
  (t.states.lookup s).getD ⟨[], none⟩

/-- Fragments of a per-capture-group action (one fragment per listed group,
in group order, each spanning exactly that group's matched text, §4.2). -/
def sGroupFrags (inp : List Char) (ks : List Tok) (m : MatchData) :
    List Fragment :=
  ks.enum.map fun ik =>
    let sp := grpSpan m (ik.1 + 1)
    ⟨sp.1, ik.2, slice inp sp.1 sp.2⟩

/-- One engine step of a delegate run (spec §4.1): `none` when the cursor
has reached the end of the input. -/
def sStep (t : SimpleTable) (inp : List Char) (c : SCtx) :
    Option (List Fragment × SCtx) :=
  if inp.length ≤ c.pos then none else
  match sFirstMatch t.flags inp c.pos
      (sLookup t (c.stack.headD ("root"))).rules with
  | some (r, m) =>
      match r.action with
      | .tok k =>
          some ([⟨c.pos, k, slice inp c.pos m.stop⟩],
            ⟨m.stop, applyTrans r.trans c.stack⟩)
      | .byGroups ks =>
          some (sGroupFrags inp ks m, ⟨m.stop, applyTrans r.trans c.stack⟩)
  | none =>
      match (sLookup t (c.stack.headD ("root"))).dflt with
      | some tr => some ([], ⟨c.pos, applyTrans (some tr) c.stack⟩)
      | none =>
          some ([⟨c.pos, .error, slice inp c.pos (c.pos + 1)⟩],
            ⟨c.pos + 1, c.stack⟩)

/-- Result of a delegate run. -/
structure SRun where
  frags : List Fragment
  ctx : SCtx
  done : Bool
deriving DecidableEq, Repr

/-- Fuel-indexed delegate engine loop. -/
def sRunAux (t : SimpleTable) (inp : List Char) : Nat → SCtx → SRun
  | 0, c => ⟨[], c, false⟩
  | n + 1, c =>
      match sStep t inp c with
      | none => ⟨[], c, true⟩
      | some (fs, c') =>
          let r := sRunAux t inp n c'
          ⟨fs ++ r.frags, r.ctx, r.done⟩

/-- Delegate tokenization: a fresh context with cursor 0 and stack
`["root"]` over exactly the handed-over text (spec §4.3). -/
def sTokenizeF (fuel : Nat) (t : SimpleTable) (inp : List Char) : SRun :=
  sRunAux t inp fuel ⟨0, [("root")]⟩

/-! ### The main engine

Context, callback hooks (translated from `XQueryLexer` in
`webmisc.py`), actions, rules and the driver loop. -/

/-- Per-run context: cursor, state-name stack (head = top) and the
auxiliary parse stack mutated by the XQuery callbacks
(`lexer.xquery_parse_state` in the source). -/
structure Ctx where
  pos : Nat
  stack : List String
  aux : List String
deriving DecidableEq, Repr

/-- The callback hooks referenced by the embedded XQuery states, one
constructor per source function. -/
inductive CallbackId where
  | punctuationRoot
  | operatorRoot
  | popstate
  | popstateKindtest
  | pushstateRoot
  | pushstateOperatorRoot
  | pushstateOperatorOrder
  | pushstateOperatorRootValidate
  | pushstateOperatorRootValidateWithmode
  | pushstateOperatorRootConstruct
  | pushstateOperatorKindtest
  | pushstateOperatorKindtestforpi
  | pushstateOperatorStarttag
  | pushstateOperatorXmlcomment
  | pushstateOperatorPI
  | pushstateOperatorCdata
  | pushstateKindtest
deriving DecidableEq, Repr

/-- The pattern `[?*+]+` the source's `popstate_kindtest_callback` applies
to capture group 2 via `re.match`. -/
def occIndRe : Regex :=
  .cat (.cls false (fun c => c = '?' || c = '*' || c = '+'))
    (.star (.cls false (fun c => c = '?' || c = '*' || c = '+')))

/-- Callback execution, translated function by function from
`webmisc.py`.  A callback receives the match and the context and returns
the fragments it emits together with the updated context; `none` models a
Python `IndexError` from popping an empty list. -/
def runCallback (cid : CallbackId) (inp : List Char) (m : MatchData)
    (c : Ctx) : Option (List Fragment × Ctx) :=
  match cid with
  | .punctuationRoot =>
      some ([⟨m.start, .punct, gslice inp m 1⟩],
        ⟨m.stop, [("root")], c.aux⟩)
  | .operatorRoot =>
      some ([⟨m.start, .opTok, gslice inp m 1⟩],
        ⟨m.stop, [("root")], c.aux⟩)
  | .popstate =>
      let fs := [⟨m.start, .punct, gslice inp m 1⟩]
      match c.aux, c.stack with
      | [], [] => none
      | [], _ :: srest => some (fs, ⟨m.stop, srest, []⟩)
      | a :: arest, st =>
          if 1 < st.length then some (fs, ⟨m.stop, a :: st, arest⟩)
          else some (fs, ⟨m.stop, [("root")], a :: arest⟩)
  | .popstateKindtest =>
      match c.aux with
      | [] => none
      | nextState :: arest =>
          if nextState = ("occurrenceindicator") then
            if (occIndRe.matchAt {} (gslice inp m 2) 0).isSome then
              some ([⟨m.start, .punct, gslice inp m 1⟩,
                     ⟨m.start, .punct, gslice inp m 2⟩],
                ⟨m.stop, ("operator") :: c.stack, arest⟩)
            else
              some ([⟨m.start, .punct, gslice inp m 1⟩],
                ⟨(grpSpan m 1).2, ("operator") :: c.stack, arest⟩)
          else
            some ([⟨m.start, .punct, gslice inp m 1⟩],
              ⟨(grpSpan m 1).2, nextState :: c.stack, arest⟩)
  | .pushstateRoot =>
      match c.stack with
      | [] => none
      | curState :: _ =>
          some ([⟨m.start, .punct, gslice inp m 1⟩],
            ⟨m.stop, [("root")], curState :: c.aux⟩)
  | .pushstateOperatorRoot =>
      some ([⟨m.start, .punct, gslice inp m 1⟩],
        ⟨m.stop, [("root")], ("operator") :: c.aux⟩)
  | .pushstateOperatorOrder =>
      some ([⟨m.start, .keyword, gslice inp m 1⟩,
             ⟨m.start, .text, gslice inp m 2⟩,
             ⟨m.start, .punct, gslice inp m 3⟩],
        ⟨m.stop, [("root")], ("operator") :: c.aux⟩)
  | .pushstateOperatorRootValidate =>
      some ([⟨m.start, .keyword, gslice inp m 1⟩,
             ⟨m.start, .text, gslice inp m 2⟩,
             ⟨m.start, .punct, gslice inp m 3⟩],
        ⟨m.stop, [("root")], ("operator") :: c.aux⟩)
  | .pushstateOperatorRootValidateWithmode =>
      some ([⟨m.start, .keyword, gslice inp m 1⟩,
             ⟨m.start, .text, gslice inp m 2⟩,
             ⟨m.start, .keyword, gslice inp m 3⟩],
        ⟨m.stop, [("root")], ("operator") :: c.aux⟩)
  | .pushstateOperatorRootConstruct =>
      some ([⟨m.start, .keyword, gslice inp m 1⟩,
             ⟨m.start, .text, gslice inp m 2⟩,
             ⟨m.start, .punct, gslice inp m 3⟩],
        ⟨m.stop, [("root")], ("operator") :: c.aux⟩)
  | .pushstateOperatorKindtest =>
      some ([⟨m.start, .keyword, gslice inp m 1⟩,
             ⟨m.start, .text, gslice inp m 2⟩,
             ⟨m.start, .punct, gslice inp m 3⟩],
        ⟨m.stop, ("kindtest") :: c.stack, ("operator") :: c.aux⟩)
  | .pushstateOperatorKindtestforpi =>
      some ([⟨m.start, .keyword, gslice inp m 1⟩,
             ⟨m.start, .text, gslice inp m 2⟩,
             ⟨m.start, .punct, gslice inp m 3⟩],
        ⟨m.stop, ("kindtestforpi") :: c.stack, ("operator") :: c.aux⟩)
  | .pushstateOperatorStarttag =>
      some ([⟨m.start, .nameTag, gslice inp m 1⟩],
        ⟨m.stop, ("start_tag") :: c.stack, ("operator") :: c.aux⟩)
  | .pushstateOperatorXmlcomment =>
      some ([⟨m.start, .strDoc, gslice inp m 1⟩],
        ⟨m.stop, ("xml_comment") :: c.stack, ("operator") :: c.aux⟩)
  | .pushstateOperatorPI =>
      some ([⟨m.start, .strDoc, gslice inp m 1⟩],
        ⟨m.stop, ("processing_instruction") :: c.stack,
          ("operator") :: c.aux⟩)
  | .pushstateOperatorCdata =>
      some ([⟨m.start, .strDoc, gslice inp m 1⟩],
        ⟨m.stop, ("cdata_section") :: c.stack, ("operator") :: c.aux⟩)
  | .pushstateKindtest =>
      some ([⟨m.start, .keyword, gslice inp m 1⟩,
             ⟨m.start, .text, gslice inp m 2⟩,
             ⟨m.start, .punct, gslice inp m 3⟩],
        ⟨m.stop, ("kindtest") :: c.stack, ("kindtest") :: c.aux⟩)

/-- Per-capture-group sub-action: emit a kind, or delegate the group's
text to a nested lexer (`using(...)` inside `bygroups(...)`). -/
inductive GroupAct where
  | tok (k : Tok)
  | use (t : SimpleTable)

/-- Rule action: emit the whole match as one kind; per-capture-group
emission; delegate the whole match to a nested lexer; or a callback
hook. -/
inductive Action where
  | tok (k : Tok)
  | byGroups (gs : List GroupAct)
  | use (t : SimpleTable)
  | callback (cid : CallbackId)

/-- Rule: compiled pattern, action, optional transition. -/
structure LexRule where
  pattern : Regex
  action : Action
  trans : Option Transition

/-- State: ordered rule sequence (with `include(...)` sequences already
flattened in, as the source preprocesses them once at construction time)
plus optional default transition. -/
structure StateDef where
  rules : List LexRule
  dflt : Option Transition

/-- Lexer table: table-level flags plus the state map. -/
structure LexTable where
  flags : Flags
  states : List (String × StateDef)

/-- State lookup; a state name absent from the table behaves as an empty
state. -/
def lookupState (t : LexTable) (s : String) : StateDef :=
  (t.states.lookup s).getD ⟨[], none⟩

/-- First rule of a rule sequence whose pattern matches at the cursor
(declaration order, first match wins — spec §4.1 step 2). -/
def firstMatch (fl : Flags) (inp : List Char) (pos : Nat) :
    List LexRule → Option (LexRule × MatchData)
  | [] => none
  | r :: rs =>
      match r.pattern.matchAt fl inp pos with
      | some m => some (r, m)
      | none => firstMatch fl inp pos rs

/-- Fragments of a grouped-emission action; a `use` group re-tokenizes the
group's text with the nested table and shifts each produced fragment by the
group's start offset. -/
def groupFrags (subFuel : Nat) (inp : List Char) (gs : List GroupAct)
    (m : MatchData) : List Fragment :=
  gs.enum.flatMap fun ig =>
    let sp := grpSpan m (ig.1 + 1)
    match ig.2 with
    | .tok k => [⟨sp.1, k, slice inp sp.1 sp.2⟩]
    | .use t =>
        (sTokenizeF subFuel t (slice inp sp.1 sp.2)).frags.map fun f =>
          ⟨f.start + sp.1, f.kind, f.text⟩

/-- Result of one engine step. -/
inductive StepRes where
  | halt
  | next (frags : List Fragment) (c : Ctx)
  | crash
deriving DecidableEq, Repr

/-- One step of the engine loop, modelled from spec §4.1: take the first
matching rule of the current state and run its action and transition; with
no match, apply the state's default transition without consuming input;
with no match and no default, emit a one-unit Error fragment and advance
by one unit. -/
def stepF (subFuel : Nat) (t : LexTable) (inp : List Char) (c : Ctx) :
    StepRes :=
  if inp.length ≤ c.pos then .halt else
  match firstMatch t.flags inp c.pos
      (lookupState t (c.stack.headD ("root"))).rules with
  | some (r, m) =>
      match r.action with
      | .tok k =>
          .next [⟨c.pos, k, slice inp c.pos m.stop⟩]
            ⟨m.stop, applyTrans r.trans c.stack, c.aux⟩
      | .byGroups gs =>
          .next (groupFrags subFuel inp gs m)
            ⟨m.stop, applyTrans r.trans c.stack, c.aux⟩
      | .use sub =>
          .next ((sTokenizeF subFuel sub (slice inp c.pos m.stop)).frags.map
              fun f => ⟨f.start + c.pos, f.kind, f.text⟩)
            ⟨m.stop, applyTrans r.trans c.stack, c.aux⟩
      | .callback cid =>
          match runCallback cid inp m c with
          | some (fs, c') => .next fs c'
          | none => .crash
  | none =>
      match (lookupState t (c.stack.headD ("root"))).dflt with
      | some tr => .next [] ⟨c.pos, applyTrans (some tr) c.stack, c.aux⟩
      | none =>
          .next [⟨c.pos, .error, slice inp c.pos (c.pos + 1)⟩]
            ⟨c.pos + 1, c.stack, c.aux⟩

/-- Result of an engine run: emitted fragments, final context, whether the
cursor reached the end of the input within the given fuel, and whether a
callback crashed. -/
structure RunRes where
  frags : List Fragment
  ctx : Ctx
  done : Bool
  crashed : Bool
deriving DecidableEq, Repr

/-- Fuel-indexed engine loop from a given context. -/
def runAux (subFuel : Nat) (t : LexTable) (inp : List Char) :
    Nat → Ctx → RunRes
  | 0, c => ⟨[], c, false, false⟩
  | n + 1, c =>
      match stepF subFuel t inp c with
      | .halt => ⟨[], c, true, false⟩
      | .crash => ⟨[], c, false, true⟩
      | .next fs c' =>
          let r := runAux subFuel t inp n c'
          ⟨fs ++ r.frags, r.ctx, r.done, r.crashed⟩

/-- Tokenization run: fresh per-run cursor and state stack; the auxiliary
parse stack is seeded with `aux0` because the source stores it on the lexer
class, where it survives from run to run. -/
def tokenizeF (fuel : Nat) (t : LexTable) (inp : List Char)
    (aux0 : List String) : RunRes :=
  runAux fuel t inp fuel ⟨0, [("root")], aux0⟩

/-- Termination of tokenization on a given input: some fuel completes the
run. -/
def Terminates (subFuel : Nat) (t : LexTable) (inp : List Char)
    (aux0 : List String) : Prop :=
  ∃ fuel, (runAux subFuel t inp fuel ⟨0, [("root")], aux0⟩).done = true

/-- Exactly `n` engine steps from a context; `none` if the run halts or
crashes earlier. -/
def iterSteps (subFuel : Nat) (t : LexTable) (inp : List Char) :
    Nat → Ctx → Option (List Fragment × Ctx)
  | 0, c => some ([], c)
  | n + 1, c =>
      match stepF subFuel t inp c with
      | .next fs c' =>
          (iterSteps subFuel t inp n c').map fun r => (fs ++ r.1, r.2)
      | _ => none

/-! ### Regex construction helpers used by the table transcriptions -/

/-- Single-character literal. -/
def chrR (c : Char) : Regex := .cls false (fun x => x = c)

/-- Positive character class given by an explicit character list. -/
def oneOf (s : String) : Regex := .cls false (fun x => s.data.contains x)

/-- Negated character class given by an explicit character list. -/
def noneOf (s : String) : Regex := .cls true (fun x => s.data.contains x)

/-- Character range class `[a-b]`. -/
def rng (a b : Char) : Regex :=
  .cls false (fun x => a.toNat ≤ x.toNat && x.toNat ≤ b.toNat)

/-- String literal. -/
def rstr (s : String) : Regex := .lit s.data

/-- Concatenation of a regex list. -/
def rcat (rs : List Regex) : Regex := rs.foldr .cat .eps

/-- Prioritized alternation of a regex list (declaration order). -/
def ralt (rs : List Regex) : Regex :=
  match rs with
  | [] => .cls false (fun _ => false)
  | r :: rest => rest.foldl .alt r

/-- Greedy `r?`. -/
def ropt (r : Regex) : Regex := .alt r .eps

/-- Greedy `r+`. -/
def rplus (r : Regex) : Regex := .cat r (.star r)

/-- Capturing group. -/
def g (n : Nat) (r : Regex) : Regex := .grp n r

/-- Python `\s` (ASCII). -/
def pSpace (c : Char) : Bool :=
  c = ' ' || c = '\t' || c = '\n' || c = '\r' ||
    c = Char.ofNat 11 || c = Char.ofNat 12

/-- Class `\s`. -/
def wSpace : Regex := .cls false pSpace

/-- Class `\d`. -/
def wDigit : Regex := .cls false (fun c => c.isDigit)

/-- Class `\w`. -/
def wWord : Regex := .cls false isWordChar

/-- Class `[\w-]`. -/
def wWordDash : Regex := .cls false (fun c => isWordChar c || c = '-')

/-- Class `.` without `re.DOTALL` (anything but a newline). -/
def dotNoNl : Regex := .cls true (fun c => c = '\n')

/-- Class `.` under `re.DOTALL` (any character). -/
def dotAll : Regex := .cls false (fun _ => true)

/-! ### The SPARQL table, translated from `SparqlLexer` in
`pygments/lexers/rdf.py` -/

/-- Flags of `SparqlLexer`: `re.IGNORECASE`. -/
def sparqlFlags : Flags := { ignorecase := true }

/-- Keyword alternation of the second `root` rule, alternatives in source
order. -/
def sparqlKeywordAlt : Regex := ralt [rstr ("select"), rstr ("construct"),
  rstr ("describe"), rstr ("ask"), rstr ("where"), rstr ("filter"),
  rcat [rstr ("group"), rplus wSpace, rstr ("by")], rstr ("minus"),
  rstr ("distinct"), rstr ("reduced"), rstr ("from named"), rstr ("from"),
  rcat [rstr ("order"), rplus wSpace, rstr ("by")], rstr ("limit"),
  rstr ("offset"), rstr ("bindings"), rstr ("load"), rstr ("clear"),
  rstr ("drop"), rstr ("create"), rstr ("add"), rstr ("move"),
  rstr ("copy"),
  rcat [rstr ("insert"), rplus wSpace, rstr ("data")],
  rcat [rstr ("delete"), rplus wSpace, rstr ("data")],
  rcat [rstr ("delete"), rplus wSpace, rstr ("where")],
  rstr ("delete"), rstr ("insert"), rstr ("using named"), rstr ("using"),
  rstr ("graph"), rstr ("default"), rstr ("named"), rstr ("all"),
  rstr ("optional"), rstr ("service"), rstr ("silent"), rstr ("bind"),
  rstr ("union"), rstr ("not in"), rstr ("in"), rstr ("as"), rstr ("a")]

/-- Function-name alternation of the `root` rule
`(str|lang|...|separator)\b`, alternatives in source order. -/
def sparqlFunctionAlt : Regex := ralt [rstr ("str"), rstr ("lang"),
  rstr ("langmatches"), rstr ("datatype"), rstr ("bound"), rstr ("iri"),
  rstr ("uri"), rstr ("bnode"), rstr ("rand"), rstr ("abs"),
  rstr ("ceil"), rstr ("floor"), rstr ("round"), rstr ("concat"),
  rstr ("strlen"), rstr ("ucase"), rstr ("lcase"),
  rstr ("encode_for_uri"), rstr ("contains"), rstr ("strstarts"),
  rstr ("strends"), rstr ("strbefore"), rstr ("strafter"),
  rstr ("year"), rstr ("month"), rstr ("day"), rstr ("hours"),
  rstr ("minutes"), rstr ("seconds"), rstr ("timezone"), rstr ("tz"),
  rstr ("now"), rstr ("md5"), rstr ("sha1"), rstr ("sha256"),
  rstr ("sha384"), rstr ("sha512"), rstr ("coalesce"), rstr ("if"),
  rstr ("strlang"), rstr ("strdt"), rstr ("sameterm"), rstr ("isiri"),
  rstr ("isuri"), rstr ("isblank"), rstr ("isliteral"),
  rstr ("isnumeric"), rstr ("regex"), rstr ("substr"), rstr ("replace"),
  rstr ("exists"), rstr ("not exists"), rstr ("count"), rstr ("sum"),
  rstr ("min"), rstr ("max"), rstr ("avg"), rstr ("sample"),
  rstr ("group_concat"), rstr ("separator")]

/-- The `root` rule `[+\-]?\d*\.\d+` → `Number.Float` (declared before the
integer rule). -/
def sparqlFloatRule : LexRule :=
  ⟨rcat [ropt (oneOf ("+-")), .star wDigit, chrR ('.'), rplus wDigit],
    .tok .numFloat, none⟩

/-- The `root` rule `[+\-]?\d+` → `Number.Integer` (declared after the
float rules). -/
def sparqlIntegerRule : LexRule :=
  ⟨rcat [ropt (oneOf ("+-")), rplus wDigit], .tok .numInteger, none⟩

/-- The `root` state of `SparqlLexer`, rules in source order. -/
def sparqlRoot : List LexRule := [
  ⟨rplus wSpace, .tok .whitespace, none⟩,
  ⟨sparqlKeywordAlt |> g 1, .tok .keyword, none⟩,
  ⟨rcat [g 1 (ralt [rstr ("prefix"), rstr ("base")]),
     g 2 (rplus wSpace),
     g 3 (rcat [rng ('a') ('z'), .star wWordDash]),
     g 4 (.star wSpace), g 5 (chrR (':'))],
   .byGroups [.tok .keyword, .tok .whitespace, .tok .nameNamespace,
     .tok .whitespace, .tok .punct], none⟩,
  ⟨rcat [chrR ('?'),
     .cls false (fun c => ('a').toNat ≤ c.toNat && c.toNat ≤ ('z').toNat
       || c = '_'), .star wWord],
   .tok .nameVariable, none⟩,
  ⟨rcat [chrR ('<'), rplus (noneOf (">")), chrR ('>')],
   .tok .nameLabel, none⟩,
  ⟨rcat [g 1 (rcat [rng ('a') ('z'), .star wWordDash]), g 2 (chrR (':')),
     g 3 (rcat [rng ('a') ('z'), .star wWordDash])],
   .byGroups [.tok .nameNamespace, .tok .punct, .tok .nameTag], none⟩,
  ⟨.cat (g 1 sparqlFunctionAlt) .wordB, .tok .nameFunction, none⟩,
  ⟨g 1 (ralt [rstr ("true"), rstr ("false")]), .tok .litTok, none⟩,
  sparqlFloatRule,
  ⟨rcat [ropt (oneOf ("+-")), .star wDigit,
     ropt (g 1 (rcat [ropt (chrR (':')), chrR ('.'), rplus wDigit])),
     chrR ('E'), ropt (oneOf ("+-")), rplus wDigit],
   .tok .numFloat, none⟩,
  sparqlIntegerRule,
  ⟨g 1 (ralt [rstr ("||"), rstr ("&&"), rstr ("="), rstr ("*"),
     rstr ("-"), rstr ("+"), rstr ("/")]), .tok .opTok, none⟩,
  ⟨oneOf ("(){}.;,:^"), .tok .punct, none⟩,
  ⟨rcat [chrR ('#'), rplus (noneOf ("\n"))], .tok .comment, none⟩,
  ⟨rstr ("\"\"\""), .tok .strTok,
   some (.pushN [("triple-double-quoted-string")])⟩,
  ⟨chrR ('"'), .tok .strTok,
   some (.pushN [("single-double-quoted-string")])⟩,
  ⟨rstr ("'''"), .tok .strTok,
   some (.pushN [("triple-single-quoted-string")])⟩,
  ⟨chrR ('\''), .tok .strTok,
   some (.pushN [("single-single-quoted-string")])⟩]

/-- The `end-of-string` state of `SparqlLexer`: language tag, `^^`, and a
default transition `default('#pop:2')`. -/
def sparqlEndOfString : StateDef :=
  ⟨[⟨rcat [g 1 (chrR ('@')),
       g 2 (rcat [rplus (rng ('a') ('z')),
         .star (g 3 (rcat [ropt (chrR (':')), chrR ('-'),
           rplus (.cls false (fun c =>
             ('a').toNat ≤ c.toNat && c.toNat ≤ ('z').toNat ||
               c.isDigit))]))])],
     .byGroups [.tok .opTok, .tok .nameFunction], some (.popN 2)⟩,
    ⟨rstr ("^^"), .tok .opTok, some (.popN 2)⟩],
   some (.popN 2)⟩

/-- The complete state table of `SparqlLexer`, translated state by state
from the source. -/
def sparqlTokens : LexTable :=
  ⟨sparqlFlags,
   [(("root"), ⟨sparqlRoot, none⟩),
    (("triple-double-quoted-string"),
     ⟨[⟨rstr ("\"\"\""), .tok .strTok, some (.pushN [("end-of-string")])⟩,
       ⟨rplus (noneOf ("\\")), .tok .strTok, none⟩,
       ⟨chrR ('\\'), .tok .strTok, some (.pushN [("string-escape")])⟩],
      none⟩),
    (("single-double-quoted-string"),
     ⟨[⟨chrR ('"'), .tok .strTok, some (.pushN [("end-of-string")])⟩,
       ⟨rplus (noneOf ("\"\\\n")), .tok .strTok, none⟩,
       ⟨chrR ('\\'), .tok .strTok, some (.pushN [("string-escape")])⟩],
      none⟩),
    (("triple-single-quoted-string"),
     ⟨[⟨rstr ("'''"), .tok .strTok, some (.pushN [("end-of-string")])⟩,
       ⟨rplus (noneOf ("\\")), .tok .strTok, none⟩,
       ⟨chrR ('\\'), .tok .strTok, some (.pushN [("string-escape")])⟩],
      none⟩),
    (("single-single-quoted-string"),
     ⟨[⟨chrR ('\''), .tok .strTok, some (.pushN [("end-of-string")])⟩,
       ⟨rplus (noneOf ("'\\\n")), .tok .strTok, none⟩,
       ⟨chrR ('\\'), .tok .strTok, some (.pushN [("string-escape")])⟩],
      none⟩),
    (("string-escape"),
     ⟨[⟨dotNoNl, .tok .strTok, some (.popN 1)⟩], none⟩),
    (("end-of-string"), sparqlEndOfString)]⟩

/-! ### The XQuery table, translated from `XQueryLexer` in
`pygments/lexers/webmisc.py`

The claims touch the states `root`, `operator`, `comment`, `whitespace`,
`kindtest` and `qname_braren`; these are transcribed below completely and
in source order.  Flags: `re.DOTALL | re.MULTILINE | re.UNICODE`. -/

/-- Flags of `XQueryLexer`. -/
def xqFlags : Flags := { dotall := true }

/-- Helper pattern `ncnamestartchar = (?:[A-Z]|_|[a-z])`. -/
def ncnamestartchar : Regex :=
  ralt [rng ('A') ('Z'), chrR ('_'), rng ('a') ('z')]

/-- Helper pattern `ncnamechar = (?:ncnamestartchar|-|\.|[0-9])`. -/
def ncnamechar : Regex :=
  ralt [ncnamestartchar, chrR ('-'), chrR ('.'), rng ('0') ('9')]

/-- Helper pattern `ncname = (?:ncnamestartchar+ncnamechar*)`. -/
def ncname : Regex := rcat [rplus ncnamestartchar, .star ncnamechar]

/-- Helper pattern `prefixedname = ncname:ncname`. -/
def prefixedname : Regex := rcat [ncname, chrR (':'), ncname]

/-- Helper pattern `qname = (?:prefixedname|ncname)`. -/
def qname : Regex := ralt [prefixedname, ncname]

/-- Helper pattern `entityref = (?:&(?:lt|gt|amp|quot|apos|nbsp);)`. -/
def entityref : Regex :=
  rcat [chrR ('&'),
    ralt [rstr ("lt"), rstr ("gt"), rstr ("amp"), rstr ("quot"),
      rstr ("apos"), rstr ("nbsp")], chrR (';')]

/-- Hexadecimal digit class `[0-9a-fA-F]`. -/
def hexDigit : Regex :=
  .cls false (fun c => c.isDigit ||
    ('a').toNat ≤ c.toNat && c.toNat ≤ ('f').toNat ||
    ('A').toNat ≤ c.toNat && c.toNat ≤ ('F').toNat)

/-- Helper pattern `charref = (?:&#[0-9]+;|&#x[0-9a-fA-F]+;)`. -/
def charref : Regex :=
  ralt [rcat [rstr ("&#"), rplus (rng ('0') ('9')), chrR (';')],
    rcat [rstr ("&#x"), rplus hexDigit, chrR (';')]]

/-- Helper pattern `stringdouble`. -/
def stringdouble : Regex :=
  rcat [chrR ('"'),
    .star (ralt [entityref, charref, rstr ("\"\""), noneOf ("&\"")]),
    chrR ('"')]

/-- Helper pattern `stringsingle`. -/
def stringsingle : Regex :=
  rcat [chrR ('\''),
    .star (ralt [entityref, charref, rstr ("''"), noneOf ("&'")]),
    chrR ('\'')]

/-- The `comment` state of `XQueryLexer` (nestable `(: ... :)`
comments). -/
def xqCommentState : List LexRule := [
  ⟨g 1 (rstr (":)")), .tok .comment, some (.popN 1)⟩,
  ⟨g 1 (rstr ("(:")), .tok .comment, some .pushSelf⟩,
  ⟨noneOf (":)"), .tok .comment, none⟩,
  ⟨g 1 (ralt [noneOf (":)"), chrR (':'), chrR (')')]), .tok .comment,
   none⟩]

/-- The `operator` state of `XQueryLexer`, rules in source order with the
`include('whitespace')` flattened in front. -/
def xqOperatorState : List LexRule := [
  ⟨rplus wSpace, .tok .text, none⟩,
  ⟨g 1 (chrR ('}')), .callback .popstate, none⟩,
  ⟨rstr ("(:"), .tok .comment, some (.pushN [("comment")])⟩,
  ⟨g 1 (chrR ('{')), .callback .pushstateRoot, none⟩,
  ⟨ralt [rstr ("then"), rstr ("else"), rstr ("external"), rstr ("at"),
     rstr ("div"), rstr ("except")], .tok .keyword,
   some (.pushN [("root")])⟩,
  ⟨rstr ("order by"), .tok .keyword, some (.pushN [("root")])⟩,
  ⟨ralt [rstr ("is"), rstr ("mod"),
     rcat [rstr ("order"), rplus wSpace, rstr ("by")],
     rcat [rstr ("stable"), rplus wSpace, rstr ("order"), rplus wSpace,
       rstr ("by")]], .tok .keyword, some (.pushN [("root")])⟩,
  ⟨ralt [rstr ("and"), rstr ("or")], .tok .opWord,
   some (.pushN [("root")])⟩,
  ⟨.cat (g 1 (ralt [rstr ("eq"), rstr ("ge"), rstr ("gt"), rstr ("le"),
     rstr ("lt"), rstr ("ne"), rstr ("idiv"), rstr ("intersect"),
     rstr ("in")])) (.look .wordB), .tok .opWord,
   some (.pushN [("root")])⟩,
  ⟨ralt [rstr ("return"), rstr ("satisfies"), rstr ("to"),
     rstr ("union"), rstr ("where"),
     rcat [rstr ("preserve"), rplus wSpace, rstr ("strip")]],
   .tok .keyword, some (.pushN [("root")])⟩,
  ⟨g 1 (ralt [rstr (">="), rstr (">>"), rstr (">"), rstr ("<="),
     rstr ("<<"), rstr ("<"), rstr ("-"), rstr ("*"), rstr ("!="),
     rstr ("+"), rstr ("||"), rstr ("|"), rstr (":="), rstr ("=")]),
   .callback .operatorRoot, none⟩,
  ⟨g 1 (ralt [rstr ("::"), rstr (";"), rstr ("["), rstr ("//"),
     rstr ("/"), rstr (",")]), .callback .punctuationRoot, none⟩,
  ⟨rcat [g 1 (ralt [rstr ("castable"), rstr ("cast")]),
     g 2 (rplus wSpace), g 3 (rstr ("as")), .wordB],
   .byGroups [.tok .keyword, .tok .text, .tok .keyword],
   some (.pushN [("singletype")])⟩,
  ⟨rcat [g 1 (rstr ("instance")), g 2 (rplus wSpace), g 3 (rstr ("of")),
     .wordB], .byGroups [.tok .keyword, .tok .text, .tok .keyword],
   some (.pushN [("itemtype")])⟩,
  ⟨rcat [g 1 (rstr ("treat")), g 2 (rplus wSpace), g 3 (rstr ("as")),
     .wordB], .byGroups [.tok .keyword, .tok .text, .tok .keyword],
   some (.pushN [("itemtype")])⟩,
  ⟨.cat (g 1 (ralt [rstr ("case"), rstr ("as")])) .wordB, .tok .keyword,
   some (.pushN [("itemtype")])⟩,
  ⟨rcat [g 1 (chrR (')')), g 2 (.star wSpace), g 3 (rstr ("as"))],
   .byGroups [.tok .punct, .tok .text, .tok .keyword],
   some (.pushN [("itemtype")])⟩,
  ⟨chrR ('$'), .tok .nameVariable, some (.pushN [("varname")])⟩,
  ⟨rcat [g 1 (ralt [rstr ("for"), rstr ("let")]), g 2 (rplus wSpace),
     g 3 (chrR ('$'))],
   .byGroups [.tok .keyword, .tok .text, .tok .nameVariable],
   some (.pushN [("varname")])⟩,
  ⟨ralt [chrR (')'), chrR ('?'), chrR (']')], .tok .punct, none⟩,
  ⟨rcat [g 1 (rstr ("empty")), g 2 (rplus wSpace),
     g 3 (ralt [rstr ("greatest"), rstr ("least")])],
   .byGroups [.tok .keyword, .tok .text, .tok .keyword], none⟩,
  ⟨ralt [rstr ("ascending"), rstr ("descending"), rstr ("default")],
   .tok .keyword, some .pushSelf⟩,
  ⟨rstr ("external"), .tok .keyword, none⟩,
  ⟨rstr ("collation"), .tok .keyword, some (.pushN [("uritooperator")])⟩,
  ⟨stringdouble, .tok .strDouble, none⟩,
  ⟨stringsingle, .tok .strSingle, none⟩,
  ⟨rcat [g 1 (rstr ("catch")), g 2 (.star wSpace)],
   .byGroups [.tok .keyword, .tok .text], some (.pushN [("root")])⟩]

/-- The `kindtest` state of `XQueryLexer`. -/
def xqKindtestState : List LexRule := [
  ⟨rstr ("(:"), .tok .comment, some (.pushN [("comment")])⟩,
  ⟨chrR ('{'), .tok .punct, some (.pushN [("root")])⟩,
  ⟨rcat [g 1 (chrR (')')), g 2 (ropt (oneOf ("*+?")))],
   .callback .popstateKindtest, none⟩,
  ⟨chrR ('*'), .tok .nameTok, some (.pushN [("closekindtest")])⟩,
  ⟨qname, .tok .nameTok, some (.pushN [("closekindtest")])⟩,
  ⟨rcat [g 1 (ralt [rstr ("element"), rstr ("schema-element")]),
     g 2 (.star wSpace), g 3 (chrR ('('))],
   .callback .pushstateKindtest, none⟩]

/-- The `qname_braren` state of `XQueryLexer`, `include('whitespace')`
flattened in front. -/
def xqQnameBrarenState : List LexRule := [
  ⟨rplus wSpace, .tok .text, none⟩,
  ⟨g 1 (chrR ('{')), .callback .pushstateOperatorRoot, none⟩,
  ⟨g 1 (chrR ('(')), .tok .punct, some (.pushN [("root")])⟩]

/-- The `root` state of `XQueryLexer`, rules in source order with the
`include('whitespace')` flattened in front. -/
def xqRootState : List LexRule := [
  ⟨rplus wSpace, .tok .text, none⟩,
  ⟨rstr ("(:"), .tok .comment, some (.pushN [("comment")])⟩,
  ⟨rcat [rplus wDigit, ropt (g 1 (rcat [chrR ('.'), .star wDigit])),
     oneOf ("eE"), ropt (oneOf ("+-")), rplus wDigit],
   .tok .numFloat, some (.pushN [("operator")])⟩,
  ⟨rcat [g 1 (rcat [chrR ('.'), rplus wDigit]), oneOf ("eE"),
     ropt (oneOf ("+-")), rplus wDigit],
   .tok .numFloat, some (.pushN [("operator")])⟩,
  ⟨g 1 (ralt [rcat [chrR ('.'), rplus wDigit],
     rcat [rplus wDigit, chrR ('.'), .star wDigit]]),
   .tok .numFloat, some (.pushN [("operator")])⟩,
  ⟨g 1 (rplus wDigit), .tok .numInteger, some (.pushN [("operator")])⟩,
  ⟨g 1 (ralt [rstr (".."), rstr ("."), rstr (")")]), .tok .punct,
   some (.pushN [("operator")])⟩,
  ⟨rcat [g 1 (rstr ("declare")), g 2 (rplus wSpace),
     g 3 (rstr ("construction"))],
   .byGroups [.tok .keyword, .tok .text, .tok .keyword],
   some (.pushN [("operator")])⟩,
  ⟨rcat [g 1 (rstr ("declare")), g 2 (rplus wSpace),
     g 3 (rstr ("default")), g 4 (rplus wSpace), g 5 (rstr ("order"))],
   .byGroups [.tok .keyword, .tok .text, .tok .keyword, .tok .text,
     .tok .keyword], some (.pushN [("operator")])⟩,
  ⟨rcat [ncname, chrR (':'), chrR ('*')], .tok .nameTok,
   some (.pushN [("operator")])⟩,
  ⟨rcat [chrR ('*'), chrR (':'), ncname], .tok .nameTag,
   some (.pushN [("operator")])⟩,
  ⟨chrR ('*'), .tok .nameTag, some (.pushN [("operator")])⟩,
  ⟨stringdouble, .tok .strDouble, some (.pushN [("operator")])⟩,
  ⟨stringsingle, .tok .strSingle, some (.pushN [("operator")])⟩,
  ⟨g 1 (chrR ('}')), .callback .popstate, none⟩,
  ⟨rcat [g 1 (rstr ("declare")), g 2 (rplus wSpace),
     g 3 (rstr ("default")), g 4 (rplus wSpace),
     g 5 (rstr ("collation"))],
   .byGroups [.tok .keyword, .tok .text, .tok .keyword, .tok .text,
     .tok .keyword], none⟩,
  ⟨rcat [g 1 (ralt [rstr ("module"), rstr ("declare")]),
     g 2 (rplus wSpace), g 3 (rstr ("namespace"))],
   .byGroups [.tok .keyword, .tok .text, .tok .keyword],
   some (.pushN [("namespacedecl")])⟩,
  ⟨rcat [g 1 (rstr ("declare")), g 2 (rplus wSpace),
     g 3 (rstr ("base-uri"))],
   .byGroups [.tok .keyword, .tok .text, .tok .keyword],
   some (.pushN [("namespacedecl")])⟩,
  ⟨rcat [g 1 (rstr ("declare")), g 2 (rplus wSpace),
     g 3 (rstr ("default")), g 4 (rplus wSpace),
     g 5 (ralt [rstr ("element"), rstr ("function")])],
   .byGroups [.tok .keyword, .tok .text, .tok .keyword, .tok .text,
     .tok .keyword], some (.pushN [("namespacekeyword")])⟩,
  ⟨rcat [g 1 (rstr ("import")), g 2 (rplus wSpace),
     g 3 (ralt [rstr ("schema"), rstr ("module")])],
   .byGroups [.tok .keywordPseudo, .tok .text, .tok .keywordPseudo],
   some (.pushN [("namespacekeyword")])⟩,
  ⟨rcat [g 1 (rstr ("declare")), g 2 (rplus wSpace),
     g 3 (rstr ("copy-namespaces"))],
   .byGroups [.tok .keyword, .tok .text, .tok .keyword],
   some (.pushN [("namespacekeyword")])⟩,
  ⟨rcat [g 1 (ralt [rstr ("for"), rstr ("let"), rstr ("some"),
     rstr ("every")]), g 2 (rplus wSpace), g 3 (chrR ('$'))],
   .byGroups [.tok .keyword, .tok .text, .tok .nameVariable],
   some (.pushN [("varname")])⟩,
  ⟨chrR ('$'), .tok .nameVariable, some (.pushN [("varname")])⟩,
  ⟨rcat [g 1 (rstr ("declare")), g 2 (rplus wSpace),
     g 3 (rstr ("variable")), g 4 (rplus wSpace), g 5 (chrR ('$'))],
   .byGroups [.tok .keyword, .tok .text, .tok .keyword, .tok .text,
     .tok .nameVariable], some (.pushN [("varname")])⟩,
  ⟨rcat [g 1 (chrR (')')), g 2 (rplus wSpace), g 3 (rstr ("as"))],
   .byGroups [.tok .opTok, .tok .text, .tok .keyword],
   some (.pushN [("itemtype")])⟩,
  ⟨rcat [g 1 (ralt [rstr ("element"), rstr ("attribute"),
     rstr ("schema-element"), rstr ("schema-attribute"),
     rstr ("comment"), rstr ("text"), rstr ("node"),
     rstr ("document-node"), rstr ("empty-sequence")]),
     g 2 (rplus wSpace), g 3 (chrR ('('))],
   .callback .pushstateOperatorKindtest, none⟩,
  ⟨rcat [g 1 (rstr ("processing-instruction")), g 2 (rplus wSpace),
     g 3 (chrR ('('))], .callback .pushstateOperatorKindtestforpi, none⟩,
  ⟨g 1 (rstr ("<!--")), .callback .pushstateOperatorXmlcomment, none⟩,
  ⟨g 1 (rstr ("<?")), .callback .pushstateOperatorPI, none⟩,
  ⟨g 1 (rstr ("<![CDATA[")), .callback .pushstateOperatorCdata, none⟩,
  ⟨g 1 (chrR ('<')), .callback .pushstateOperatorStarttag, none⟩,
  ⟨rcat [g 1 (rstr ("declare")), g 2 (rplus wSpace),
     g 3 (rstr ("boundary-space"))],
   .byGroups [.tok .keyword, .tok .text, .tok .keyword],
   some (.pushN [("xmlspace_decl")])⟩,
  ⟨rcat [g 1 (rstr ("validate")), g 2 (rplus wSpace),
     g 3 (ralt [rstr ("lax"), rstr ("strict")])],
   .callback .pushstateOperatorRootValidateWithmode, none⟩,
  ⟨rcat [g 1 (rstr ("validate")), g 2 (.star wSpace), g 3 (chrR ('{'))],
   .callback .pushstateOperatorRootValidate, none⟩,
  ⟨rcat [g 1 (rstr ("typeswitch")), g 2 (.star wSpace),
     g 3 (chrR ('('))],
   .byGroups [.tok .keyword, .tok .text, .tok .punct], none⟩,
  ⟨rcat [g 1 (ralt [rstr ("element"), rstr ("attribute")]),
     g 2 (.star wSpace), g 3 (chrR ('{'))],
   .callback .pushstateOperatorRootConstruct, none⟩,
  ⟨rcat [g 1 (ralt [rstr ("document"), rstr ("text"),
     rstr ("processing-instruction"), rstr ("comment")]),
     g 2 (.star wSpace), g 3 (chrR ('{'))],
   .callback .pushstateOperatorRootConstruct, none⟩,
  ⟨rcat [g 1 (rstr ("attribute")), g 2 (rplus wSpace), .look qname],
   .byGroups [.tok .keyword, .tok .text],
   some (.pushN [("attribute_qname")])⟩,
  ⟨rcat [g 1 (rstr ("element")), g 2 (rplus wSpace), .look qname],
   .byGroups [.tok .keyword, .tok .text],
   some (.pushN [("element_qname")])⟩,
  ⟨rcat [g 1 (rstr ("processing-instruction")), g 2 (rplus wSpace),
     g 3 ncname, g 4 (.star wSpace), g 5 (chrR ('{'))],
   .byGroups [.tok .keyword, .tok .text, .tok .nameVariable, .tok .text,
     .tok .punct], some (.pushN [("operator")])⟩,
  ⟨rcat [g 1 (ralt [rstr ("declare"), rstr ("define")]),
     g 2 (rplus wSpace), g 3 (rstr ("function"))],
   .byGroups [.tok .keyword, .tok .text, .tok .keyword], none⟩,
  ⟨g 1 (chrR ('{')), .callback .pushstateOperatorRoot, none⟩,
  ⟨rcat [g 1 (ralt [rstr ("unordered"), rstr ("ordered")]),
     g 2 (.star wSpace), g 3 (chrR ('{'))],
   .callback .pushstateOperatorOrder, none⟩,
  ⟨rcat [g 1 (rstr ("declare")), g 2 (rplus wSpace),
     g 3 (rstr ("ordering"))],
   .byGroups [.tok .keyword, .tok .text, .tok .keyword],
   some (.pushN [("declareordering")])⟩,
  ⟨rcat [g 1 (rstr ("xquery")), g 2 (rplus wSpace),
     g 3 (rstr ("version"))],
   .byGroups [.tok .keywordPseudo, .tok .text, .tok .keywordPseudo],
   some (.pushN [("xqueryversion")])⟩,
  ⟨g 1 (rstr ("(#")), .tok .punct, some (.pushN [("pragma")])⟩,
  ⟨rstr ("return"), .tok .keyword, none⟩,
  ⟨rcat [g 1 (rstr ("declare")), g 2 (rplus wSpace),
     g 3 (rstr ("option"))],
   .byGroups [.tok .keyword, .tok .text, .tok .keyword],
   some (.pushN [("option")])⟩,
  ⟨rcat [g 1 (rstr ("at")), g 2 (rplus wSpace), g 3 stringdouble],
   .tok .strDouble, some (.pushN [("namespacedecl")])⟩,
  ⟨rcat [g 1 (rstr ("at")), g 2 (rplus wSpace), g 3 stringsingle],
   .tok .strSingle, some (.pushN [("namespacedecl")])⟩,
  ⟨rcat [g 1 (ralt [rstr ("ancestor-or-self"), rstr ("ancestor"),
     rstr ("attribute"), rstr ("child"),
     rstr ("descendant-or-self")]), g 2 (rstr ("::"))],
   .byGroups [.tok .keyword, .tok .punct], none⟩,
  ⟨rcat [g 1 (ralt [rstr ("descendant"), rstr ("following-sibling"),
     rstr ("following"), rstr ("parent"), rstr ("preceding-sibling"),
     rstr ("preceding"), rstr ("self")]), g 2 (rstr ("::"))],
   .byGroups [.tok .keyword, .tok .punct], none⟩,
  ⟨rcat [g 1 (rstr ("if")), g 2 (.star wSpace), g 3 (chrR ('('))],
   .byGroups [.tok .keyword, .tok .text, .tok .punct], none⟩,
  ⟨ralt [rstr ("then"), rstr ("else")], .tok .keyword, none⟩,
  ⟨rcat [g 1 (rstr ("try")), g 2 (.star wSpace)],
   .byGroups [.tok .keyword, .tok .text], some (.pushN [("root")])⟩,
  ⟨rcat [g 1 (rstr ("catch")), g 2 (.star wSpace), g 3 (chrR ('(')),
     g 4 (chrR ('$'))],
   .byGroups [.tok .keyword, .tok .text, .tok .punct,
     .tok .nameVariable], some (.pushN [("varname")])⟩,
  ⟨g 1 (rcat [chrR ('@'), qname]), .tok .nameAttribute, none⟩,
  ⟨g 1 (rcat [chrR ('@'), ncname]), .tok .nameAttribute, none⟩,
  ⟨rcat [chrR ('@'), chrR ('*'), chrR (':'), ncname],
   .tok .nameAttribute, none⟩,
  ⟨g 1 (chrR ('@')), .tok .nameAttribute, none⟩,
  ⟨ralt [rstr ("//"), rstr ("/"), rstr ("+"), rstr ("-"), rstr (";"),
     rstr (","), rstr ("("), rstr (")")], .tok .punct, none⟩,
  ⟨rcat [qname, .look (rcat [.star wSpace, chrR ('{')])], .tok .nameTag,
   some (.pushN [("qname_braren")])⟩,
  ⟨rcat [qname, .look (rcat [.star wSpace, chrR ('('), noneOf (":")])],
   .tok .nameFunction, some (.pushN [("qname_braren")])⟩,
  ⟨qname, .tok .nameTag, some (.pushN [("operator")])⟩]

/-- The states of `XQueryLexer.tokens` the claims exercise, as one
table. -/
def xqueryTokensPart : LexTable :=
  ⟨xqFlags,
   [(("root"), ⟨xqRootState, none⟩),
    (("operator"), ⟨xqOperatorState, none⟩),
    (("comment"), ⟨xqCommentState, none⟩),
    (("whitespace"), ⟨[⟨rplus wSpace, .tok .text, none⟩], none⟩),
    (("kindtest"), ⟨xqKindtestState, none⟩),
    (("qname_braren"), ⟨xqQnameBrarenState, none⟩)]⟩

/-! ### The Duel table, translated from `DuelLexer` in
`pygments/lexers/webmisc.py` -/

/-- Modelled from the spec: the nested `JavascriptLexer` table the Duel
rules delegate to lives in `pygments/lexers/javascript.py`, which is not
among the sources; per §1/§6 nested tables are configuration data consumed
by the engine, so a minimal stand-in table (whitespace / identifiers /
integers / anything else) represents it here. -/
def jsModelTable : SimpleTable :=
  ⟨{}, [(("root"),
    ⟨[⟨rplus wSpace, .tok .text, none⟩,
      ⟨rcat [.cls false (fun c => c.isAlpha || c = '_' || c = '$'),
         .star wWord], .tok .nameOther, none⟩,
      ⟨rplus wDigit, .tok .numInteger, none⟩,
      ⟨dotAll, .tok .text, none⟩], none⟩)]⟩

/-- Modelled from the spec: the nested `HtmlLexer` table
(`pygments/lexers/html.py`) is likewise not among the sources; a minimal
stand-in emitting the handed-over region as one Text fragment represents
it. -/
def htmlModelTable : SimpleTable :=
  ⟨{}, [(("root"),
    ⟨[⟨rcat [dotAll, .star dotAll], .tok .text, none⟩], none⟩)]⟩

/-- Flags of `DuelLexer`: `re.DOTALL`. -/
def duelFlags : Flags := { dotall := true }

/-- The fifth `root` rule of `DuelLexer`, `(.+?)(?=<)` handing the matched
chunk to the HTML sub-lexer. -/
def duelHtmlChunkRule : LexRule :=
  ⟨rcat [g 1 (rcat [dotAll, .starL dotAll]), .look (chrR ('<'))],
    .use htmlModelTable, none⟩

/-- The `root` state of `DuelLexer`, rules in source order. -/
def duelRootState : List LexRule := [
  ⟨rcat [g 1 (rcat [rstr ("<%"), ropt (oneOf ("@=#!:"))]),
     g 2 (.starL dotAll), g 3 (rstr ("%>"))],
   .byGroups [.tok .nameTag, .use jsModelTable, .tok .nameTag], none⟩,
  ⟨rcat [g 1 (rstr ("<%$")), g 2 (.starL dotAll), g 3 (chrR (':')),
     g 4 (.starL dotAll), g 5 (rstr ("%>"))],
   .byGroups [.tok .nameTag, .tok .nameFunction, .tok .punct,
     .tok .strTok, .tok .nameTag], none⟩,
  ⟨rcat [g 1 (rstr ("<%--")), g 2 (.starL dotAll), g 3 (rstr ("--%>"))],
   .byGroups [.tok .nameTag, .tok .commentMultiline, .tok .nameTag],
   none⟩,
  ⟨rcat [g 1 (rcat [rstr ("<script"), .starL dotAll, chrR ('>')]),
     g 2 (.starL dotAll), g 3 (rstr ("</script>"))],
   .byGroups [.use htmlModelTable, .use jsModelTable,
     .use htmlModelTable], none⟩,
  duelHtmlChunkRule,
  ⟨rcat [dotAll, .star dotAll], .use htmlModelTable, none⟩]

/-- The state table of `DuelLexer`. -/
def duelTokens : LexTable := ⟨duelFlags, [(("root"), ⟨duelRootState, none⟩)]⟩

/-! ### Properties the claims speak about -/

/-- Per-step coverage: every step of the engine on this table and input
either halts or emits fragments whose concatenated texts are exactly the
consumed slice, with a non-retreating cursor.  This is the construction-time
validity the specification demands of actions (grouped emissions tile their
match, §4.2; callbacks cover the span they consume, §4.4/§7(c,d)). -/
def Covering (subFuel : Nat) (t : LexTable) (inp : List Char) : Prop :=
  ∀ c fs c', stepF subFuel t inp c = .next fs c' →
    c.pos ≤ c'.pos ∧ joinTexts fs = slice inp c.pos c'.pos

/-- Starts of a fragment list are non-decreasing in emission order. -/
def startsNonDecr : List Fragment → Bool
  | [] => true
  | [_] => true
  | a :: b :: t => decide (a.start ≤ b.start) && startsNonDecr (b :: t)

/-- Insertion into a start-sorted fragment list. -/
def insertByStart (f : Fragment) : List Fragment → List Fragment
  | [] => [f]
  | x :: t =>
      if f.start ≤ x.start then f :: x :: t else x :: insertByStart f t

/-- Stable sort of fragments by start offset. -/
def sortByStart : List Fragment → List Fragment
  | [] => []
  | f :: t => insertByStart f (sortByStart t)

/-- Adjacent fragments are contiguous (each ends where the next starts). -/
def contiguousB : List Fragment → Bool
  | [] => true
  | [_] => true
  | a :: b :: t =>
      decide (a.start + a.text.length = b.start) && contiguousB (b :: t)

/-- All fragment spans `[start, start + |text|)` are pairwise
non-overlapping. -/
def nonOverlapB : List Fragment → Bool
  | [] => true
  | a :: t =>
      t.all (fun b => decide (a.start + a.text.length ≤ b.start) ||
        decide (b.start + b.text.length ≤ a.start)) && nonOverlapB t

/-- The fragment-ordering invariant as the claim states it: sorted by start
offset the fragments are contiguous and non-overlapping, and emission-order
start offsets are non-decreasing. -/
def FragOrderingInvariant (fs : List Fragment) : Prop :=
  contiguousB (sortByStart fs) = true ∧
    nonOverlapB (sortByStart fs) = true ∧ startsNonDecr fs = true

/-- Scan of an XQuery comment body: position immediately after the point
where the nesting depth first falls to zero, scanning from `pos` at depth
`depth` (`:)` closes one level, `(:` opens one, any other character is
consumed singly); `none` when the input (or the scanning fuel) ends
first. -/
def commentClose (inp : List Char) : Nat → Nat → Nat → Option Nat
  | 0, _, _ => none
  | fuel + 1, pos, depth =>
      if inp.length ≤ pos then none
      else if inp[pos]? = some (':') ∧ inp[pos + 1]? = some (')')
      then
        if depth ≤ 1 then some (pos + 2)
        else commentClose inp fuel (pos + 2) (depth - 1)
      else if inp[pos]? = some ('(') ∧ inp[pos + 1]? = some (':')
      then commentClose inp fuel (pos + 2) (depth + 1)
      else commentClose inp fuel (pos + 1) depth

/-! ### Pathological and auxiliary tables for the engine-level claims -/

/-- A table whose root state has no rules and a default transition pushing
the root state again: the no-consumption default loop the specification
calls a configuration defect (§4.1 step 4, §7(c)). -/
def loopTable : LexTable :=
  ⟨{}, [(("root"), ⟨[], some (.pushN [("root")])⟩)]⟩

/-- A table with a grouped-emission rule whose capture groups do not tile
the match (`(a)b(c)` with kinds for the two groups): the malformed
assignment §4.2 says construction must reject. -/
def gapTable : LexTable :=
  ⟨{}, [(("root"),
    ⟨[⟨rcat [g 1 (chrR ('a')), chrR ('b'), g 2 (chrR ('c'))],
       .byGroups [.tok .text, .tok .text], none⟩], none⟩)]⟩

/-- A well-formed one-rule table (any character is one Text fragment),
used to exhibit the coverage theorem at a concrete instance. -/
def coverTable : LexTable :=
  ⟨{}, [(("root"), ⟨[⟨dotAll, .tok .text, none⟩], none⟩)]⟩

/-- A table with an empty-prefix-matching rule that pushes a state (the
shape of Slim's `(r'', Text, 'plain')` rule) and a consuming state that
pops: progress relies on the state transition, not on consumption. -/
def emptyPushTable : LexTable :=
  ⟨{}, [(("root"),
     ⟨[⟨.eps, .tok .text, some (.pushN [("plain")])⟩], none⟩),
    (("plain"), ⟨[⟨dotAll, .tok .text, some (.popN 1)⟩], none⟩)]⟩

/-- Measure used to show `emptyPushTable` makes progress: non-consuming
steps leave the root state. -/
def emptyPushMeasure (c : Ctx) : Nat :=
  if c.stack.headD ("root") = "root" then 1 else 0


theorem slice_refl (inp : List Char) (a : Nat) : slice inp a a = [] :=
  List.drop_eq_nil_of_le (inp.length_take_le a)

theorem slice_append (inp : List Char) {a b c : Nat} (h1 : a ≤ b)
    (h2 : b ≤ c) : slice inp a b ++ slice inp b c = slice inp a c := by
  unfold slice
  rw [show inp.take b = (inp.take c).take b by
        rw [List.take_take, Nat.min_eq_left h2],
    List.drop_take,
    show (inp.take c).drop b = ((inp.take c).drop a).drop (b - a) by
      rw [List.drop_drop]; congr 1; omega,
    List.take_append_drop]

theorem slice_zero_take (inp : List Char) (p : Nat) :
    slice inp 0 p = inp.take p := by
  simp [slice]

theorem stepF_halt_iff (subFuel : Nat) (t : LexTable) (inp : List Char)
    (c : Ctx) : stepF subFuel t inp c = .halt ↔ inp.length ≤ c.pos := by
  constructor
  · intro h
    by_contra hp
    unfold stepF at h
    rw [if_neg hp] at h
    split at h
    · split at h
      · simp at h
      · simp at h
      · simp at h
      · split at h
        · simp at h
        · simp at h
    · split at h
      · simp at h
      · simp at h
  · intro h
    unfold stepF
    rw [if_pos h]


/-- Explicit fragments of the first XQuery run of claim C4. -/
def c4FragsFresh : List Fragment :=
  [⟨0, .numInteger, ("1").data⟩, ⟨1, .punct, ("\x7d").data⟩,
   ⟨2, .nameTag, ("div").data⟩, ⟨5, .punct, ("\x7b").data⟩]

/-- Explicit fragments of the second XQuery run of claim C4. -/
def c4FragsStale : List Fragment :=
  [⟨0, .numInteger, ("1").data⟩, ⟨1, .punct, ("\x7d").data⟩,
   ⟨2, .keyword, ("div").data⟩, ⟨5, .punct, ("\x7b").data⟩]

/-- C4: running the XQuery lexer twice over the same input `1}div{` does
not yield byte-identical fragment sequences, because the auxiliary parse
stack (`xquery_parse_state`, a class-level attribute in the source) leaks
from the first run into the second: the first run (empty auxiliary stack)
lexes `div` as `Name.Tag`, leaves `['operator']` on the auxiliary stack,
and a second run seeded with that leftover lexes `div` as `Keyword`. -/
theorem c4_aux_stack_leak :
    tokenizeF 20 xqueryTokensPart (("1\x7ddiv\x7b").data) [] =
      ⟨c4FragsFresh, ⟨6, [("root")], [("operator")]⟩, true, false⟩ ∧
    tokenizeF 20 xqueryTokensPart (("1\x7ddiv\x7b").data) [("operator")] =
      ⟨c4FragsStale, ⟨6, [("root")], [("operator")]⟩, true, false⟩ ∧
    c4FragsFresh ≠ c4FragsStale := by
  refine ⟨by decide, by decide, by decide⟩

/-- C3: first-match priority on the SPARQL root state for input `1.5`:
the whole input is emitted as one `Number.Float` fragment; the scan indeed
selects the float rule (declared before the integer rule), even though the
integer rule also matches at position 0 (with stop 1). -/
theorem c3_first_match_priority :
    tokenizeF 20 sparqlTokens (("1.5").data) [] =
      ⟨[⟨0, .numFloat, ("1.5").data⟩], ⟨3, [("root")], []⟩, true, false⟩ ∧
    firstMatch sparqlFlags (("1.5").data) 0 sparqlRoot =
      some (sparqlFloatRule, ⟨0, 3, []⟩) ∧
    sparqlIntegerRule.pattern.matchAt sparqlFlags (("1.5").data) 0 =
      some ⟨0, 1, []⟩ := by
  refine ⟨by decide, by rfl, by decide⟩

/-- C6: a raw newline inside the SPARQL `single-double-quoted-string`
state matches no rule of that state, and the state has no default
transition, so the engine emits exactly one Error fragment covering
exactly that one character, advances by one unit, never raises, and
continues tokenizing in the same state. -/
theorem c6_unmatched_error :
    tokenizeF 20 sparqlTokens (("\"a\nb\"").data) [] =
      ⟨[⟨0, .strTok, ("\"").data⟩, ⟨1, .strTok, ("a").data⟩,
        ⟨2, .error, ("\n").data⟩, ⟨3, .strTok, ("b").data⟩,
        ⟨4, .strTok, ("\"").data⟩],
       ⟨5, [("end-of-string"), ("single-double-quoted-string"), ("root")],
         []⟩, true, false⟩ ∧
    iterSteps 20 sparqlTokens (("\"a\nb\"").data) 2 ⟨0, [("root")], []⟩ =
      some ([⟨0, .strTok, ("\"").data⟩, ⟨1, .strTok, ("a").data⟩],
        ⟨2, [("single-double-quoted-string"), ("root")], []⟩) ∧
    iterSteps 20 sparqlTokens (("\"a\nb\"").data) 3 ⟨0, [("root")], []⟩ =
      some ([⟨0, .strTok, ("\"").data⟩, ⟨1, .strTok, ("a").data⟩,
        ⟨2, .error, ("\n").data⟩],
        ⟨3, [("single-double-quoted-string"), ("root")], []⟩) := by
  refine ⟨by decide, by decide, by decide⟩

/-- C7: the SPARQL `end-of-string` default transition: after the closing
quote of `"a" `, no rule of `end-of-string` matches the space, so
`default('#pop:2')` pops two states back to `root` without consuming
input and without emitting a fragment, and the next fragment is produced
by a root rule at the unchanged cursor position 3. -/
theorem c7_default_transition :
    iterSteps 20 sparqlTokens (("\"a\" ").data) 3 ⟨0, [("root")], []⟩ =
      some ([⟨0, .strTok, ("\"").data⟩, ⟨1, .strTok, ("a").data⟩,
        ⟨2, .strTok, ("\"").data⟩],
        ⟨3, [("end-of-string"), ("single-double-quoted-string"), ("root")],
          []⟩) ∧
    iterSteps 20 sparqlTokens (("\"a\" ").data) 4 ⟨0, [("root")], []⟩ =
      some ([⟨0, .strTok, ("\"").data⟩, ⟨1, .strTok, ("a").data⟩,
        ⟨2, .strTok, ("\"").data⟩], ⟨3, [("root")], []⟩) ∧
    tokenizeF 20 sparqlTokens (("\"a\" ").data) [] =
      ⟨[⟨0, .strTok, ("\"").data⟩, ⟨1, .strTok, ("a").data⟩,
        ⟨2, .strTok, ("\"").data⟩, ⟨3, .whitespace, (" ").data⟩],
       ⟨4, [("root")], []⟩, true, false⟩ := by
  refine ⟨by decide, by decide, by decide⟩

/-- Explicit fragments of the `unordered {` XQuery run of claim C5. -/
def c5Frags : List Fragment :=
  [⟨0, .keyword, ("unordered").data⟩, ⟨0, .text, (" ").data⟩,
   ⟨0, .punct, ("\x7b").data⟩]

/-- C5 (counterexample): the XQuery run on `unordered {` emits via
`pushstate_operator_order_callback` three fragments for capture groups 1,
2 and 3 all carrying start offset `match.start() = 0`, so the fragments,
sorted by start offset, are neither contiguous nor non-overlapping: the
claimed ordering invariant fails for this run. -/
theorem c5_counterexample :
    (tokenizeF 30 xqueryTokensPart (("unordered \x7b").data) []).frags =
      c5Frags ∧
    ¬ FragOrderingInvariant c5Frags := by
  refine ⟨by decide, ?_⟩
  intro h
  exact absurd h.1 (by decide)

/-- C1 (counterexample): a table whose grouped-emission rule's capture
groups do not tile the match (pattern `(a)b(c)` with kinds only for the
two groups) completes on input `abc` but reproduces only `ac`: total
coverage fails for a table violating the construction-time validity of
§4.2, so the claim does not hold for literally every state table. -/
theorem c1_counterexample :
    (tokenizeF 5 gapTable (("abc").data) []).done = true ∧
    joinTexts (tokenizeF 5 gapTable (("abc").data) []).frags =
      ("ac").data ∧
    joinTexts (tokenizeF 5 gapTable (("abc").data) []).frags ≠
      ("abc").data := by
  refine ⟨by decide, by decide, by decide⟩


/-- C9: pop transitions deeper than the state-name stack fall back to the
designated root state (engine side, spec §7(b)), and the XQuery
`popstate_callback`, on its `}` match, pops the state-name stack when the
auxiliary parse stack is empty, otherwise pushes the popped auxiliary
entry when the state stack holds more than one element, and otherwise
resets the state stack to exactly `['root']` — deterministically and
without raising. -/
theorem c9_stack_underflow :
    (∀ (n : Nat) (st : List String), st.length ≤ n →
       applyTrans (some (.popN n)) st = [("root")]) ∧
    (∀ (inp : List Char) (m : MatchData) (c : Ctx),
       (c.aux = [] → ∀ s srest, c.stack = s :: srest →
         runCallback .popstate inp m c =
           some ([⟨m.start, .punct, gslice inp m 1⟩],
             ⟨m.stop, srest, []⟩)) ∧
       (∀ a arest, c.aux = a :: arest → 1 < c.stack.length →
         runCallback .popstate inp m c =
           some ([⟨m.start, .punct, gslice inp m 1⟩],
             ⟨m.stop, a :: c.stack, arest⟩)) ∧
       (∀ a arest, c.aux = a :: arest → c.stack.length ≤ 1 →
         runCallback .popstate inp m c =
           some ([⟨m.start, .punct, gslice inp m 1⟩],
             ⟨m.stop, [("root")], a :: arest⟩))) := by
  constructor
  · intro n st h
    simp [applyTrans, List.drop_eq_nil_of_le h]
  · intro inp m c
    refine ⟨?_, ?_, ?_⟩
    · intro ha s srest hs
      simp [runCallback, ha, hs]
    · intro a arest ha hlen
      simp [runCallback, ha, hlen]
    · intro a arest ha hlen
      simp [runCallback, ha, Nat.not_lt.mpr hlen]

/-- C9 (witness): the theorem at concrete inputs — a pop of depth 2 on a
one-element stack resets to `['root']`, and the three `popstate_callback`
branches on a concrete `}` match. -/
theorem c9_witness :
    applyTrans (some (.popN 2)) [("operator")] = [("root")] ∧
    runCallback .popstate (("\x7d").data) ⟨0, 1, [(1, 0, 1)]⟩
        ⟨0, [("root")], []⟩ =
      some ([⟨0, .punct, ("\x7d").data⟩], ⟨1, [], []⟩) ∧
    runCallback .popstate (("\x7d").data) ⟨0, 1, [(1, 0, 1)]⟩
        ⟨0, [("a"), ("b")], [("operator")]⟩ =
      some ([⟨0, .punct, ("\x7d").data⟩],
        ⟨1, [("operator"), ("a"), ("b")], []⟩) ∧
    runCallback .popstate (("\x7d").data) ⟨0, 1, [(1, 0, 1)]⟩
        ⟨0, [("a")], [("operator")]⟩ =
      some ([⟨0, .punct, ("\x7d").data⟩], ⟨1, [("root")], [("operator")]⟩) :=
  ⟨c9_stack_underflow.1 2 [("operator")] (by decide),
   (c9_stack_underflow.2 (("\x7d").data) ⟨0, 1, [(1, 0, 1)]⟩
       ⟨0, [("root")], []⟩).1 rfl ("root") [] rfl,
   (c9_stack_underflow.2 (("\x7d").data) ⟨0, 1, [(1, 0, 1)]⟩
       ⟨0, [("a"), ("b")], [("operator")]⟩).2.1 ("operator") [] rfl
     (by decide),
   (c9_stack_underflow.2 (("\x7d").data) ⟨0, 1, [(1, 0, 1)]⟩
       ⟨0, [("a")], [("operator")]⟩).2.2 ("operator") [] rfl (by decide)⟩

/-- C8: sub-lexer delegation.  Generically, whenever the first matching
rule of the current state delegates (`using(...)`), the engine re-emits
exactly the fragments of a complete nested run over only the matched
substring — the nested context starting at cursor 0 with stack
`['root']` — with every start offset shifted by the outer match start, and
the outer stack is changed only by the outer rule's own transition, the
auxiliary stack not at all.  Concretely, the Duel rule
`(<%[@=#!:]?)(.*?)(%>)` hands `ab` to the JavaScript sub-lexer, whose
fragment is re-emitted shifted by the delegated region's start 3. -/
theorem c8_delegation :
    (∀ (subFuel : Nat) (t : LexTable) (inp : List Char) (c : Ctx)
       (r : LexRule) (m : MatchData) (sub : SimpleTable),
       c.pos < inp.length →
       firstMatch t.flags inp c.pos
           (lookupState t (c.stack.headD ("root"))).rules = some (r, m) →
       r.action = .use sub →
       stepF subFuel t inp c =
         .next ((sTokenizeF subFuel sub (slice inp c.pos m.stop)).frags.map
             fun f => ⟨f.start + c.pos, f.kind, f.text⟩)
           ⟨m.stop, applyTrans r.trans c.stack, c.aux⟩) ∧
    sTokenizeF 30 jsModelTable (("ab").data) =
      ⟨[⟨0, .nameOther, ("ab").data⟩], ⟨2, [("root")]⟩, true⟩ ∧
    tokenizeF 30 duelTokens (("<%=ab%>").data) [] =
      ⟨[⟨0, .nameTag, ("<%=").data⟩, ⟨3, .nameOther, ("ab").data⟩,
        ⟨5, .nameTag, ("%>").data⟩], ⟨7, [("root")], []⟩, true, false⟩ := by
  refine ⟨?_, by decide, by decide⟩
  intro subFuel t inp c r m sub hp hfm hact
  unfold stepF
  rw [if_neg (Nat.not_le.mpr hp), hfm]
  dsimp only
  rw [hact]

/-- C8 (witness): the generic delegation step at a concrete instance — the
Duel rule `(.+?)(?=<)` firing on `x<y` at position 0 delegates `x` to the
HTML sub-lexer with a fresh nested context and no outer stack change. -/
theorem c8_witness :
    stepF 30 duelTokens (("x<y").data) ⟨0, [("root")], []⟩ =
      .next ((sTokenizeF 30 htmlModelTable
            (slice (("x<y").data) 0 1)).frags.map
          fun f => ⟨f.start + 0, f.kind, f.text⟩)
        ⟨1, applyTrans duelHtmlChunkRule.trans [("root")], []⟩ :=
  c8_delegation.1 30 duelTokens (("x<y").data) ⟨0, [("root")], []⟩
    duelHtmlChunkRule ⟨0, 1, [(1, 0, 1)]⟩ htmlModelTable (by decide)
    (by rfl) (by rfl)


/-- C2 (counterexample): the engine does not terminate for every table —
on `loopTable`, whose root state has no rules and a default transition
pushing `root` again, the default transition fires forever without
consuming input, so no fuel completes the run on input `x`. -/
theorem c2_counterexample : ¬ Terminates 5 loopTable (("x").data) [] := by
  have key : ∀ (fuel : Nat) (st : List String) (aux : List String),
      (runAux 5 loopTable (("x").data) fuel
        ⟨0, ("root") :: st, aux⟩).done = false := by
    intro fuel
    induction fuel with
    | zero => intro st aux; rfl
    | succ n ih =>
      intro st aux
      have hs : stepF 5 loopTable (("x").data) ⟨0, ("root") :: st, aux⟩ =
          .next [] ⟨0, ("root") :: ("root") :: st, aux⟩ := rfl
      simp only [runAux, hs]
      exact ih (("root") :: st) aux
  rintro ⟨fuel, hdone⟩
  rw [key fuel [] []] at hdone
  exact Bool.false_ne_true hdone

/-- C2 (amended): the engine terminates on every finite input for every
table whose non-consuming steps admit a decreasing measure — that is,
whenever no rule/default-transition combination can loop without consuming
input — and whose callbacks do not crash. -/
theorem c2_progress (subFuel : Nat) (t : LexTable) (inp : List Char)
    (aux0 : List String) (μ : Ctx → Nat)
    (hstep : ∀ c fs c', stepF subFuel t inp c = .next fs c' →
      c.pos < c'.pos ∨ (c'.pos = c.pos ∧ μ c' < μ c))
    (hcrash : ∀ c, stepF subFuel t inp c ≠ .crash) :
    Terminates subFuel t inp aux0 := by
  have main : ∀ (k m : Nat) (c : Ctx), inp.length + 1 - c.pos ≤ k →
      μ c ≤ m → ∃ n, (runAux subFuel t inp n c).done = true := by
    intro k
    induction k with
    | zero =>
      intro m c hk _
      refine ⟨1, ?_⟩
      have hhalt : stepF subFuel t inp c = .halt :=
        (stepF_halt_iff subFuel t inp c).mpr (by omega)
      simp [runAux, hhalt]
    | succ k ih =>
      intro m
      induction m with
      | zero =>
        intro c hk hm
        by_cases hp : inp.length ≤ c.pos
        · refine ⟨1, ?_⟩
          have hhalt : stepF subFuel t inp c = .halt :=
            (stepF_halt_iff subFuel t inp c).mpr hp
          simp [runAux, hhalt]
        · rcases hsr : stepF subFuel t inp c with _ | ⟨fs, c'⟩ | _
          · exact absurd ((stepF_halt_iff _ _ _ _).mp hsr) hp
          · rcases hstep c fs c' hsr with hlt | ⟨_, hmu⟩
            · obtain ⟨n, hn⟩ := ih (μ c') c' (by omega) le_rfl
              exact ⟨n + 1, by simp [runAux, hsr, hn]⟩
            · omega
          · exact absurd hsr (hcrash c)
      | succ m ihm =>
        intro c hk hm
        by_cases hp : inp.length ≤ c.pos
        · refine ⟨1, ?_⟩
          have hhalt : stepF subFuel t inp c = .halt :=
            (stepF_halt_iff subFuel t inp c).mpr hp
          simp [runAux, hhalt]
        · rcases hsr : stepF subFuel t inp c with _ | ⟨fs, c'⟩ | _
          · exact absurd ((stepF_halt_iff _ _ _ _).mp hsr) hp
          · rcases hstep c fs c' hsr with hlt | ⟨heq, hmu⟩
            · obtain ⟨n, hn⟩ := ih (μ c') c' (by omega) le_rfl
              exact ⟨n + 1, by simp [runAux, hsr, hn]⟩
            · obtain ⟨n, hn⟩ := ihm c' (by omega) (by omega)
              exact ⟨n + 1, by simp [runAux, hsr, hn]⟩
          · exact absurd hsr (hcrash c)
  exact main (inp.length + 1) (μ ⟨0, [("root")], aux0⟩)
    ⟨0, [("root")], aux0⟩ (by omega) le_rfl

/-- Closed form of one engine step on `emptyPushTable` over input `x` at
cursor 0, by the top of the state stack. -/
theorem emptyPush_step_eq (c : Ctx) (hp : c.pos = 0) :
    stepF 5 emptyPushTable (("x").data) c =
      if c.stack.headD ("root") = "root"
      then .next [⟨0, .text, []⟩] ⟨0, ("plain") :: c.stack, c.aux⟩
      else if c.stack.headD ("root") = "plain"
      then .next [⟨0, .text, [('x')]⟩]
        ⟨1, applyTrans (some (.popN 1)) c.stack, c.aux⟩
      else .next [⟨0, .error, [('x')]⟩] ⟨1, c.stack, c.aux⟩ := by
  rcases c with ⟨pos, stack, aux⟩
  simp only at hp
  subst hp
  by_cases h1 : stack.headD ("root") = "root"
  · rw [if_pos h1]
    unfold stepF
    dsimp only
    rw [h1, if_neg (by decide : ¬((("x").data).length ≤ 0))]
    rfl
  · by_cases h2 : stack.headD ("root") = "plain"
    · rw [if_neg h1, if_pos h2]
      unfold stepF
      dsimp only
      rw [h2, if_neg (by decide : ¬((("x").data).length ≤ 0))]
      rfl
    · rw [if_neg h1, if_neg h2]
      unfold stepF
      dsimp only
      rw [if_neg (by decide : ¬((("x").data).length ≤ 0))]
      simp only [lookupState, List.lookup, beq_eq_false_iff_ne.mpr h1,
        beq_eq_false_iff_ne.mpr h2]
      rfl

/-- C2 (witness): the amended theorem at a concrete instance — the table
`emptyPushTable`, whose root rule matches the empty prefix and pushes a
state (the shape of Slim's `eval-or-plain` empty-pattern rule), satisfies
the measure hypothesis with `emptyPushMeasure`, never crashes, and
terminates on input `x`. -/
theorem c2_witness :
    (∀ c fs c', stepF 5 emptyPushTable (("x").data) c = .next fs c' →
       c.pos < c'.pos ∨
         (c'.pos = c.pos ∧ emptyPushMeasure c' < emptyPushMeasure c)) ∧
    (∀ c, stepF 5 emptyPushTable (("x").data) c ≠ .crash) ∧
    Terminates 5 emptyPushTable (("x").data) [] := by
  have hstep : ∀ c fs c', stepF 5 emptyPushTable (("x").data) c = .next fs c' →
      c.pos < c'.pos ∨
        (c'.pos = c.pos ∧ emptyPushMeasure c' < emptyPushMeasure c) := by
    intro c fs c' h
    by_cases hp : c.pos = 0
    · rw [emptyPush_step_eq c hp] at h
      by_cases h1 : c.stack.headD ("root") = "root"
      · rw [if_pos h1] at h
        injection h with hfs hc
        subst hc
        refine Or.inr ⟨hp.symm, ?_⟩
        unfold emptyPushMeasure
        rw [List.headD_cons, h1]
        simp
      · by_cases h2 : c.stack.headD ("root") = "plain"
        · rw [if_neg h1, if_pos h2] at h
          injection h with hfs hc
          subst hc
          left
          show c.pos < 1
          omega
        · rw [if_neg h1, if_neg h2] at h
          injection h with hfs hc
          subst hc
          left
          show c.pos < 1
          omega
    · have hh : stepF 5 emptyPushTable (("x").data) c = .halt :=
        (stepF_halt_iff _ _ _ _).mpr (by simp; omega)
      rw [hh] at h
      exact absurd h (by simp)
  have hcrash : ∀ c, stepF 5 emptyPushTable (("x").data) c ≠ .crash := by
    intro c h
    by_cases hp : c.pos = 0
    · rw [emptyPush_step_eq c hp] at h
      by_cases h1 : c.stack.headD ("root") = "root"
      · rw [if_pos h1] at h; exact absurd h (by simp)
      · by_cases h2 : c.stack.headD ("root") = "plain"
        · rw [if_neg h1, if_pos h2] at h; exact absurd h (by simp)
        · rw [if_neg h1, if_neg h2] at h; exact absurd h (by simp)
    · have hh : stepF 5 emptyPushTable (("x").data) c = .halt :=
        (stepF_halt_iff _ _ _ _).mpr (by simp; omega)
      rw [hh] at h
      exact absurd h (by simp)
  exact ⟨hstep, hcrash,
    c2_progress 5 emptyPushTable (("x").data) [] emptyPushMeasure hstep
      hcrash⟩

theorem joinTexts_append (a b : List Fragment) :
    joinTexts (a ++ b) = joinTexts a ++ joinTexts b := by
  simp [joinTexts]

theorem joinTexts_single (f : Fragment) : joinTexts [f] = f.text := by
  simp [joinTexts]

/-- Invariant of the engine loop under per-step coverage: from any context,
the concatenated texts of the emitted fragments are exactly the slice of
input between the starting and final cursor, the cursor never retreats,
and a completed run ends with the cursor at or past the input length. -/
theorem runAux_covering (subFuel : Nat) (t : LexTable) (inp : List Char)
    (hcov : Covering subFuel t inp) :
    ∀ (fuel : Nat) (c : Ctx),
      c.pos ≤ (runAux subFuel t inp fuel c).ctx.pos ∧
      joinTexts (runAux subFuel t inp fuel c).frags =
        slice inp c.pos (runAux subFuel t inp fuel c).ctx.pos ∧
      ((runAux subFuel t inp fuel c).done = true →
        inp.length ≤ (runAux subFuel t inp fuel c).ctx.pos) := by
  intro fuel
  induction fuel with
  | zero =>
    intro c
    refine ⟨le_rfl, ?_, ?_⟩
    · simp [runAux, joinTexts, slice_refl]
    · intro h
      exact absurd h (by simp [runAux])
  | succ n ih =>
    intro c
    rcases hsr : stepF subFuel t inp c with _ | ⟨fs, c'⟩ | _
    · have hp := (stepF_halt_iff _ _ _ _).mp hsr
      simp only [runAux, hsr]
      exact ⟨le_rfl, by simp [joinTexts, slice_refl], fun _ => hp⟩
    · obtain ⟨h1, h2⟩ := hcov c fs c' hsr
      obtain ⟨ih1, ih2, ih3⟩ := ih c'
      refine ⟨?_, ?_, ?_⟩
      · simp only [runAux, hsr]
        omega
      · simp only [runAux, hsr]
        rw [joinTexts_append, h2, ih2]
        exact slice_append inp h1 ih1
      · simp only [runAux, hsr]
        exact ih3
    · simp only [runAux, hsr]
      exact ⟨le_rfl, by simp [joinTexts, slice_refl], by simp⟩

/-- C1 (amended): total coverage holds for every state table satisfying
the construction-time validity of §4.2/§7 — every step's emitted fragment
texts concatenate to exactly the consumed slice: the fragments of any run
from a fresh context concatenate to the consumed prefix, and to the whole
input once the run completes.  Concretely, the XQuery run over
`element ()*` — in which `popstate_kindtest_callback` emits only group 1
and moves the cursor back to `match.end(1)`, leaving `*` to be re-lexed —
completes and reconstructs the input exactly. -/
theorem c1_total_coverage :
    (∀ (subFuel fuel : Nat) (t : LexTable) (inp : List Char)
       (aux0 : List String), Covering subFuel t inp →
       joinTexts (runAux subFuel t inp fuel ⟨0, [("root")], aux0⟩).frags =
         inp.take
           (runAux subFuel t inp fuel ⟨0, [("root")], aux0⟩).ctx.pos ∧
       ((runAux subFuel t inp fuel ⟨0, [("root")], aux0⟩).done = true →
         joinTexts
           (runAux subFuel t inp fuel ⟨0, [("root")], aux0⟩).frags =
           inp)) ∧
    (tokenizeF 30 xqueryTokensPart (("element ()*").data) []).done =
      true ∧
    joinTexts
      (tokenizeF 30 xqueryTokensPart (("element ()*").data) []).frags =
      ("element ()*").data := by
  refine ⟨?_, by decide, by decide⟩
  intro subFuel fuel t inp aux0 hcov
  obtain ⟨h1, h2, h3⟩ :=
    runAux_covering subFuel t inp hcov fuel ⟨0, [("root")], aux0⟩
  constructor
  · rw [h2, slice_zero_take]
  · intro hd
    rw [h2, slice_zero_take]
    exact List.take_of_length_le (h3 hd)

/-- Per-step coverage of the one-rule table `coverTable` on input `ab`:
every step emits exactly the consumed slice. -/
theorem coverTable_covering : Covering 5 coverTable (("ab").data) := by
  intro c fs c' h
  rcases c with ⟨pos, stack, aux⟩
  by_cases hp : (("ab").data).length ≤ pos
  · rw [(stepF_halt_iff 5 coverTable (("ab").data) ⟨pos, stack, aux⟩).mpr
      hp] at h
    exact absurd h (by simp)
  · have hlen : pos < 2 := by simpa using Nat.not_le.mp hp
    unfold stepF at h
    rw [if_neg hp] at h
    by_cases h1 : stack.headD ("root") = "root"
    · rw [h1] at h
      interval_cases pos
      · injection h with hfs hc
        subst hfs hc
        exact ⟨Nat.le_succ 0, joinTexts_single _⟩
      · injection h with hfs hc
        subst hfs hc
        exact ⟨Nat.le_succ 1, joinTexts_single _⟩
    · simp only [lookupState, List.lookup, beq_eq_false_iff_ne.mpr h1] at h
      injection h with hfs hc
      subst hfs hc
      exact ⟨Nat.le_succ pos, joinTexts_single _⟩

/-- C1 (witness): the coverage theorem applied at a concrete instance —
the table `coverTable` over input `ab` is covering, and the fragments of
its completed run concatenate to the input. -/
theorem c1_witness :
    Covering 5 coverTable (("ab").data) ∧
    joinTexts
      (runAux 5 coverTable (("ab").data) 10 ⟨0, [("root")], []⟩).frags =
      ("ab").data :=
  ⟨coverTable_covering,
   (c1_total_coverage.1 5 10 coverTable (("ab").data) []
       coverTable_covering).2 (by decide)⟩

/-- Per-step ordered emission: every step of the engine on this table and
input either halts or emits fragments whose concatenated texts are exactly
the consumed slice, whose start offsets are non-decreasing within the
step, and whose start offsets all lie between the step's starting and
final cursor.  The engine's actions are built to emit this way (spec §4.1
step 3 and §4.2), and each XQuery callback emits all its fragments at
`match.start()`. -/
def OrderedSteps (subFuel : Nat) (t : LexTable) (inp : List Char) : Prop :=
  ∀ c fs c', stepF subFuel t inp c = .next fs c' →
    c.pos ≤ c'.pos ∧ joinTexts fs = slice inp c.pos c'.pos ∧
    startsNonDecr fs = true ∧
    ∀ f ∈ fs, c.pos ≤ f.start ∧ f.start ≤ c'.pos

theorem orderedSteps_covering {subFuel : Nat} {t : LexTable}
    {inp : List Char} (h : OrderedSteps subFuel t inp) :
    Covering subFuel t inp :=
  fun c fs c' hs => ⟨(h c fs c' hs).1, (h c fs c' hs).2.1⟩

theorem startsNonDecr_append (a b : List Fragment) (p : Nat)
    (ha : startsNonDecr a = true) (hb : startsNonDecr b = true)
    (hap : ∀ x ∈ a, x.start ≤ p) (hbp : ∀ y ∈ b, p ≤ y.start) :
    startsNonDecr (a ++ b) = true := by
  induction a with
  | nil => exact hb
  | cons x t ih =>
    rcases t with _ | ⟨x2, t2⟩
    · rcases b with _ | ⟨y, b2⟩
      · rfl
      · have hx : x.start ≤ p := hap x (by simp)
        have hy : p ≤ y.start := hbp y (by simp)
        show (decide (x.start ≤ y.start) && startsNonDecr (y :: b2)) = true
        rw [Bool.and_eq_true]
        exact ⟨decide_eq_true (Nat.le_trans hx hy), hb⟩
    · have h1 : (decide (x.start ≤ x2.start) &&
          startsNonDecr (x2 :: t2)) = true := ha
      rw [Bool.and_eq_true] at h1
      have ht := ih h1.2 (fun z hz => hap z (List.mem_cons_of_mem x hz))
      show (decide (x.start ≤ x2.start) &&
        startsNonDecr ((x2 :: t2) ++ b)) = true
      rw [Bool.and_eq_true]
      exact ⟨h1.1, ht⟩

/-- Invariant of the engine loop under per-step ordered emission: the
emitted fragments of any run have non-decreasing start offsets, all lying
between the starting and final cursor. -/
theorem runAux_ordered (subFuel : Nat) (t : LexTable) (inp : List Char)
    (hord : OrderedSteps subFuel t inp) :
    ∀ (fuel : Nat) (c : Ctx),
      startsNonDecr (runAux subFuel t inp fuel c).frags = true ∧
      ∀ f ∈ (runAux subFuel t inp fuel c).frags,
        c.pos ≤ f.start ∧ f.start ≤ (runAux subFuel t inp fuel c).ctx.pos := by
  intro fuel
  induction fuel with
  | zero =>
    intro c
    refine ⟨rfl, ?_⟩
    intro f hf
    simp [runAux] at hf
  | succ n ih =>
    intro c
    rcases hsr : stepF subFuel t inp c with _ | ⟨fs, c'⟩ | _
    · constructor
      · simp only [runAux, hsr]
        rfl
      · intro f hf
        simp [runAux, hsr] at hf
    · obtain ⟨h1, h2, h3, h4⟩ := hord c fs c' hsr
      obtain ⟨ih1, ih2⟩ := ih c'
      have hmono : c'.pos ≤ (runAux subFuel t inp n c').ctx.pos :=
        (runAux_covering subFuel t inp (orderedSteps_covering hord) n
          c').1
      constructor
      · simp only [runAux, hsr]
        exact startsNonDecr_append fs (runAux subFuel t inp n c').frags
          c'.pos h3 ih1 (fun x hx => (h4 x hx).2)
          (fun y hy => (ih2 y hy).1)
      · intro f hf
        simp only [runAux, hsr] at hf ⊢
        rcases List.mem_append.mp hf with hf | hf
        · exact ⟨(h4 f hf).1, Nat.le_trans (h4 f hf).2 hmono⟩
        · exact ⟨Nat.le_trans h1 (ih2 f hf).1, (ih2 f hf).2⟩
    · constructor
      · simp only [runAux, hsr]
        rfl
      · intro f hf
        simp [runAux, hsr] at hf

/-- C5 (amended): for every run of a table whose steps emit covering,
within-step-ordered fragments (spec §4.1 step 3, §4.2; the XQuery
callbacks emit all their fragments at `match.start()`), start offsets in
emission order are non-decreasing and the concatenated text slices
reconstruct the consumed prefix — the whole input once the run completes.
Concretely, the XQuery run over `unordered {`, whose three
`pushstate_operator_order_callback` fragments share start offset 0,
completes with non-decreasing starts and reconstructs the input
exactly. -/
theorem c5_ordering :
    (∀ (subFuel fuel : Nat) (t : LexTable) (inp : List Char)
       (aux0 : List String), OrderedSteps subFuel t inp →
       startsNonDecr
           (runAux subFuel t inp fuel ⟨0, [("root")], aux0⟩).frags =
         true ∧
       joinTexts (runAux subFuel t inp fuel ⟨0, [("root")], aux0⟩).frags =
         inp.take
           (runAux subFuel t inp fuel ⟨0, [("root")], aux0⟩).ctx.pos ∧
       ((runAux subFuel t inp fuel ⟨0, [("root")], aux0⟩).done = true →
         joinTexts
             (runAux subFuel t inp fuel ⟨0, [("root")], aux0⟩).frags =
           inp)) ∧
    (tokenizeF 30 xqueryTokensPart (("unordered \x7b").data) []).done =
      true ∧
    startsNonDecr
      (tokenizeF 30 xqueryTokensPart (("unordered \x7b").data) []).frags =
      true ∧
    joinTexts
      (tokenizeF 30 xqueryTokensPart (("unordered \x7b").data) []).frags =
      ("unordered \x7b").data := by
  refine ⟨?_, by decide, by decide, by decide⟩
  intro subFuel fuel t inp aux0 hord
  obtain ⟨ho1, _⟩ :=
    runAux_ordered subFuel t inp hord fuel ⟨0, [("root")], aux0⟩
  obtain ⟨hc1, hc2, hc3⟩ :=
    runAux_covering subFuel t inp (orderedSteps_covering hord) fuel
      ⟨0, [("root")], aux0⟩
  refine ⟨ho1, ?_, ?_⟩
  · rw [hc2, slice_zero_take]
  · intro hd
    rw [hc2, slice_zero_take]
    exact List.take_of_length_le (hc3 hd)

/-- Per-step ordered emission of the one-rule table `coverTable` on input
`ab`. -/
theorem coverTable_ordered : OrderedSteps 5 coverTable (("ab").data) := by
  intro c fs c' h
  rcases c with ⟨pos, stack, aux⟩
  by_cases hp : (("ab").data).length ≤ pos
  · rw [(stepF_halt_iff 5 coverTable (("ab").data) ⟨pos, stack, aux⟩).mpr
      hp] at h
    exact absurd h (by simp)
  · have hlen : pos < 2 := by simpa using Nat.not_le.mp hp
    unfold stepF at h
    rw [if_neg hp] at h
    by_cases h1 : stack.headD ("root") = "root"
    · rw [h1] at h
      interval_cases pos
      · injection h with hfs hc
        subst hfs hc
        refine ⟨Nat.le_succ 0, joinTexts_single _, rfl, ?_⟩
        intro f hf
        simp only [List.mem_singleton] at hf
        subst hf
        exact ⟨le_rfl, Nat.le_succ 0⟩
      · injection h with hfs hc
        subst hfs hc
        refine ⟨Nat.le_succ 1, joinTexts_single _, rfl, ?_⟩
        intro f hf
        simp only [List.mem_singleton] at hf
        subst hf
        exact ⟨le_rfl, Nat.le_succ 1⟩
    · simp only [lookupState, List.lookup, beq_eq_false_iff_ne.mpr h1]
        at h
      injection h with hfs hc
      subst hfs hc
      refine ⟨Nat.le_succ pos, joinTexts_single _, rfl, ?_⟩
      intro f hf
      simp only [List.mem_singleton] at hf
      subst hf
      exact ⟨le_rfl, Nat.le_succ pos⟩

/-- C5 (witness): the amended ordering theorem applied at a concrete
instance — the table `coverTable` over input `ab` emits per-step ordered
covering fragments, and its completed run has non-decreasing start
offsets and reconstructs the input. -/
theorem c5_witness :
    OrderedSteps 5 coverTable (("ab").data) ∧
    startsNonDecr
      (runAux 5 coverTable (("ab").data) 10 ⟨0, [("root")], []⟩).frags =
      true ∧
    joinTexts
      (runAux 5 coverTable (("ab").data) 10 ⟨0, [("root")], []⟩).frags =
      ("ab").data :=
  ⟨coverTable_ordered,
   (c5_ordering.1 5 10 coverTable (("ab").data) [] coverTable_ordered).1,
   (c5_ordering.1 5 10 coverTable (("ab").data) []
      coverTable_ordered).2.2 (by decide)⟩

theorem comment_r1_match {inp : List Char} {pos : Nat}
    (h1 : inp[pos]? = some (':')) (h2 : inp[pos + 1]? = some (')')) :
    (g 1 (rstr (":)"))).matchAt xqFlags inp pos =
      some ⟨pos, pos + 2, [(1, pos, pos + 2)]⟩ := by
  unfold Regex.matchAt
  simp [mlist, g, rstr, litAt, h1, h2, chEq, xqFlags]

theorem comment_r1_nomatch {inp : List Char} {pos : Nat} {c : Char}
    (h1 : inp[pos]? = some c) (hc : c ≠ ':') :
    (g 1 (rstr (":)"))).matchAt xqFlags inp pos = none := by
  unfold Regex.matchAt
  simp [mlist, g, rstr, litAt, h1, chEq, xqFlags, Ne.symm hc]

theorem comment_r1_nomatch2 {inp : List Char} {pos : Nat}
    (h2 : inp[pos + 1]? ≠ some (')')) :
    (g 1 (rstr (":)"))).matchAt xqFlags inp pos = none := by
  unfold Regex.matchAt
  rcases hg : inp[pos]? with _ | c
  · simp [mlist, g, rstr, litAt, hg]
  · rcases hg2 : inp[pos + 1]? with _ | d
    · simp [mlist, g, rstr, litAt, hg, hg2]
    · have hd : d ≠ ')' := by rintro rfl; exact h2 hg2
      simp [mlist, g, rstr, litAt, hg, hg2, chEq, xqFlags, Ne.symm hd]

theorem comment_r2_match {inp : List Char} {pos : Nat}
    (h1 : inp[pos]? = some ('(')) (h2 : inp[pos + 1]? = some (':')) :
    (g 1 (rstr ("(:"))).matchAt xqFlags inp pos =
      some ⟨pos, pos + 2, [(1, pos, pos + 2)]⟩ := by
  unfold Regex.matchAt
  simp [mlist, g, rstr, litAt, h1, h2, chEq, xqFlags]

theorem comment_r2_nomatch {inp : List Char} {pos : Nat} {c : Char}
    (h1 : inp[pos]? = some c) (hc : c ≠ '(') :
    (g 1 (rstr ("(:"))).matchAt xqFlags inp pos = none := by
  unfold Regex.matchAt
  simp [mlist, g, rstr, litAt, h1, chEq, xqFlags, Ne.symm hc]

theorem comment_r2_nomatch2 {inp : List Char} {pos : Nat}
    (h2 : inp[pos + 1]? ≠ some (':')) :
    (g 1 (rstr ("(:"))).matchAt xqFlags inp pos = none := by
  unfold Regex.matchAt
  rcases hg : inp[pos]? with _ | c
  · simp [mlist, g, rstr, litAt, hg]
  · rcases hg2 : inp[pos + 1]? with _ | d
    · simp [mlist, g, rstr, litAt, hg, hg2]
    · have hd : d ≠ ':' := by rintro rfl; exact h2 hg2
      simp [mlist, g, rstr, litAt, hg, hg2, chEq, xqFlags, Ne.symm hd]

theorem comment_r3_match {inp : List Char} {pos : Nat} {c : Char}
    (h : inp[pos]? = some c) (hc1 : c ≠ ':') (hc2 : c ≠ ')') :
    (noneOf (":)")).matchAt xqFlags inp pos = some ⟨pos, pos + 1, []⟩ := by
  unfold Regex.matchAt
  simp [mlist, noneOf, clsMatches, xqFlags, h, List.contains, hc1, hc2]

theorem comment_r4_match {inp : List Char} {pos : Nat} {c : Char}
    (h : inp[pos]? = some c) :
    (g 1 (ralt [noneOf (":)"), chrR (':'), chrR (')')])).matchAt xqFlags
        inp pos = some ⟨pos, pos + 1, [(1, pos, pos + 1)]⟩ := by
  unfold Regex.matchAt
  by_cases hc1 : c = ':'
  · subst hc1
    simp [mlist, g, ralt, noneOf, chrR, clsMatches, xqFlags, h,
      List.contains]
  · by_cases hc2 : c = ')'
    · subst hc2
      simp [mlist, g, ralt, noneOf, chrR, clsMatches, xqFlags, h,
        List.contains]
    · simp [mlist, g, ralt, noneOf, chrR, clsMatches, xqFlags, h,
        List.contains, hc1, hc2]

theorem comment_r3_nomatch {inp : List Char} {pos : Nat} {c : Char}
    (h : inp[pos]? = some c) (hc : c = ':' ∨ c = ')') :
    (noneOf (":)")).matchAt xqFlags inp pos = none := by
  unfold Regex.matchAt
  rcases hc with rfl | rfl <;>
    simp [mlist, noneOf, clsMatches, xqFlags, h, List.contains]

/-- One engine step from the XQuery `comment` state, given which comment
rule the scan selects. -/
theorem comment_step_of_fm {subFuel : Nat} {inp : List Char} {pos : Nat}
    {st aux : List String} {r : LexRule} {m : MatchData} {k : Tok}
    (hlt : pos < inp.length)
    (hfm : firstMatch xqFlags inp pos xqCommentState = some (r, m))
    (hact : r.action = .tok k) :
    stepF subFuel xqueryTokensPart inp ⟨pos, ("comment") :: st, aux⟩ =
      .next [⟨pos, k, slice inp pos m.stop⟩]
        ⟨m.stop, applyTrans r.trans (("comment") :: st), aux⟩ := by
  unfold stepF
  rw [if_neg (Nat.not_le.mpr hlt)]
  dsimp only [List.headD]
  rw [show xqueryTokensPart.flags = xqFlags from rfl]
  rw [show (lookupState xqueryTokensPart ("comment")).rules =
    xqCommentState from rfl]
  rw [hfm]
  dsimp only
  rw [hact]

theorem comment_fm_close {inp : List Char} {pos : Nat}
    (h1 : inp[pos]? = some (':')) (h2 : inp[pos + 1]? = some (')')) :
    firstMatch xqFlags inp pos xqCommentState =
      some (⟨g 1 (rstr (":)")), .tok .comment, some (.popN 1)⟩,
        ⟨pos, pos + 2, [(1, pos, pos + 2)]⟩) := by
  simp only [xqCommentState, firstMatch]
  rw [comment_r1_match h1 h2]

theorem comment_fm_open {inp : List Char} {pos : Nat}
    (h1 : inp[pos]? = some ('(')) (h2 : inp[pos + 1]? = some (':')) :
    firstMatch xqFlags inp pos xqCommentState =
      some (⟨g 1 (rstr ("(:")), .tok .comment, some .pushSelf⟩,
        ⟨pos, pos + 2, [(1, pos, pos + 2)]⟩) := by
  simp only [xqCommentState, firstMatch]
  rw [comment_r1_nomatch h1 (by decide), comment_r2_match h1 h2]

theorem comment_step_close {subFuel : Nat} {inp : List Char} {pos : Nat}
    {st aux : List String} (hlt : pos < inp.length)
    (h1 : inp[pos]? = some (':')) (h2 : inp[pos + 1]? = some (')')) :
    stepF subFuel xqueryTokensPart inp ⟨pos, ("comment") :: st, aux⟩ =
      .next [⟨pos, .comment, slice inp pos (pos + 2)⟩]
        ⟨pos + 2, applyTrans (some (.popN 1)) (("comment") :: st), aux⟩ :=
  comment_step_of_fm hlt (comment_fm_close h1 h2) rfl

theorem comment_step_open {subFuel : Nat} {inp : List Char} {pos : Nat}
    {st aux : List String} (hlt : pos < inp.length)
    (h1 : inp[pos]? = some ('(')) (h2 : inp[pos + 1]? = some (':')) :
    stepF subFuel xqueryTokensPart inp ⟨pos, ("comment") :: st, aux⟩ =
      .next [⟨pos, .comment, slice inp pos (pos + 2)⟩]
        ⟨pos + 2, ("comment") :: ("comment") :: st, aux⟩ :=
  comment_step_of_fm hlt (comment_fm_open h1 h2) rfl

theorem comment_step_other {subFuel : Nat} {inp : List Char} {pos : Nat}
    {st aux : List String} {c : Char} (hlt : pos < inp.length)
    (hget : inp[pos]? = some c)
    (hn1 : ¬(inp[pos]? = some (':') ∧ inp[pos + 1]? = some (')')))
    (hn2 : ¬(inp[pos]? = some ('(') ∧ inp[pos + 1]? = some (':'))) :
    stepF subFuel xqueryTokensPart inp ⟨pos, ("comment") :: st, aux⟩ =
      .next [⟨pos, .comment, slice inp pos (pos + 1)⟩]
        ⟨pos + 1, ("comment") :: st, aux⟩ := by
  have hr1 : (g 1 (rstr (":)"))).matchAt xqFlags inp pos = none := by
    by_cases hc : c = ':'
    · subst hc; exact comment_r1_nomatch2 (fun h => hn1 ⟨hget, h⟩)
    · exact comment_r1_nomatch hget hc
  have hr2 : (g 1 (rstr ("(:"))).matchAt xqFlags inp pos = none := by
    by_cases hc : c = '('
    · subst hc; exact comment_r2_nomatch2 (fun h => hn2 ⟨hget, h⟩)
    · exact comment_r2_nomatch hget hc
  by_cases h3 : c = ':' ∨ c = ')'
  · have hfm : firstMatch xqFlags inp pos xqCommentState =
        some (⟨g 1 (ralt [noneOf (":)"), chrR (':'), chrR (')')]),
          .tok .comment, none⟩, ⟨pos, pos + 1, [(1, pos, pos + 1)]⟩) := by
      simp only [xqCommentState, firstMatch]
      rw [hr1, hr2, comment_r3_nomatch hget h3, comment_r4_match hget]
    exact comment_step_of_fm hlt hfm rfl
  · push_neg at h3
    have hfm : firstMatch xqFlags inp pos xqCommentState =
        some (⟨noneOf (":)"), .tok .comment, none⟩,
          ⟨pos, pos + 1, []⟩) := by
      simp only [xqCommentState, firstMatch]
      rw [hr1, hr2, comment_r3_match hget h3.1 h3.2]
    exact comment_step_of_fm hlt hfm rfl

/-- Balanced-comment run: from the XQuery `comment` state at nesting depth
`depth`, a region that closes at `q` is consumed in finitely many steps,
every emitted fragment has Comment kind, the fragments cover exactly the
region, and the engine resumes with exactly the states that were below the
comment levels. -/
theorem comment_runs (subFuel : Nat) (inp : List Char) :
    ∀ (fuel pos depth q : Nat) (rest aux : List String),
      1 ≤ depth → rest ≠ [] → commentClose inp fuel pos depth = some q →
      ∃ n fs,
        iterSteps subFuel xqueryTokensPart inp n
            ⟨pos, List.replicate depth ("comment") ++ rest, aux⟩ =
          some (fs, ⟨q, rest, aux⟩) ∧
        (∀ f ∈ fs, f.kind = .comment) ∧
        joinTexts fs = slice inp pos q ∧ pos ≤ q := by
  intro fuel
  induction fuel with
  | zero =>
    intro pos depth q rest aux _ _ h
    exact absurd h (by simp [commentClose])
  | succ fuel ih =>
    intro pos depth q rest aux hd hrest h
    rcases rest with _ | ⟨r0, rrest⟩
    · exact absurd rfl hrest
    simp only [commentClose] at h
    by_cases hp : inp.length ≤ pos
    · rw [if_pos hp] at h
      exact absurd h (by simp)
    rw [if_neg hp] at h
    have hlt : pos < inp.length := Nat.not_le.mp hp
    obtain ⟨c, hget⟩ : ∃ c, inp[pos]? = some c :=
      ⟨inp.get ⟨pos, hlt⟩, List.getElem?_eq_getElem hlt⟩
    by_cases hc1 : inp[pos]? = some (':') ∧ inp[pos + 1]? = some (')')
    · rw [if_pos hc1] at h
      by_cases hd1 : depth ≤ 1
      · rw [if_pos hd1] at h
        have hdepth : depth = 1 := by omega
        subst hdepth
        injection h with hq
        subst hq
        refine ⟨1, [⟨pos, .comment, slice inp pos (pos + 2)⟩],
          ?_, ?_, ?_, by omega⟩
        · rw [show (⟨pos, List.replicate 1 ("comment") ++ (r0 :: rrest),
              aux⟩ : Ctx) =
              ⟨pos, ("comment") :: (r0 :: rrest), aux⟩ by
            simp [List.replicate_succ]]
          simp only [iterSteps]
          rw [comment_step_close hlt hc1.1 hc1.2]
          rfl
        · intro f hf
          simp only [List.mem_singleton] at hf
          subst hf
          rfl
        · exact joinTexts_single _
      · rw [if_neg hd1] at h
        obtain ⟨d, rfl⟩ : ∃ d, depth = d + 2 := ⟨depth - 2, by omega⟩
        obtain ⟨n, fs, hrun, hkind, hjoin, hle⟩ :=
          ih (pos + 2) (d + 1) q (r0 :: rrest) aux (by omega) hrest
            (by simpa using h)
        refine ⟨n + 1, ⟨pos, .comment, slice inp pos (pos + 2)⟩ :: fs,
          ?_, ?_, ?_, by omega⟩
        · rw [show (⟨pos,
              List.replicate (d + 2) ("comment") ++ (r0 :: rrest),
              aux⟩ : Ctx) =
              ⟨pos, ("comment") :: (("comment") ::
                (List.replicate d ("comment") ++ (r0 :: rrest))), aux⟩ by
            simp [List.replicate_succ]]
          simp only [iterSteps]
          rw [comment_step_close hlt hc1.1 hc1.2]
          dsimp only
          rw [show applyTrans (some (.popN 1)) (("comment") ::
              (("comment") ::
                (List.replicate d ("comment") ++ (r0 :: rrest)))) =
              ("comment") ::
                (List.replicate d ("comment") ++ (r0 :: rrest)) from rfl]
          rw [show ("comment") ::
              (List.replicate d ("comment") ++ (r0 :: rrest)) =
              List.replicate (d + 1) ("comment") ++ (r0 :: rrest) by
            simp [List.replicate_succ]]
          rw [hrun]
          rfl
        · intro f hf
          rcases List.mem_cons.mp hf with rfl | hf
          · rfl
          · exact hkind f hf
        · rw [show (⟨pos, .comment, slice inp pos (pos + 2)⟩ : Fragment)
              :: fs = [⟨pos, .comment, slice inp pos (pos + 2)⟩] ++ fs
              from rfl,
            joinTexts_append, joinTexts_single, hjoin]
          exact slice_append inp (by omega) hle
    · rw [if_neg hc1] at h
      by_cases hc2 : inp[pos]? = some ('(') ∧ inp[pos + 1]? = some (':')
      · rw [if_pos hc2] at h
        obtain ⟨n, fs, hrun, hkind, hjoin, hle⟩ :=
          ih (pos + 2) (depth + 1) q (r0 :: rrest) aux (by omega) hrest h
        obtain ⟨d, rfl⟩ : ∃ d, depth = d + 1 := ⟨depth - 1, by omega⟩
        refine ⟨n + 1, ⟨pos, .comment, slice inp pos (pos + 2)⟩ :: fs,
          ?_, ?_, ?_, by omega⟩
        · rw [show (⟨pos,
              List.replicate (d + 1) ("comment") ++ (r0 :: rrest),
              aux⟩ : Ctx) =
              ⟨pos, ("comment") ::
                (List.replicate d ("comment") ++ (r0 :: rrest)), aux⟩ by
            simp [List.replicate_succ]]
          simp only [iterSteps]
          rw [comment_step_open hlt hc2.1 hc2.2]
          dsimp only
          rw [show ("comment") :: (("comment") ::
              (List.replicate d ("comment") ++ (r0 :: rrest))) =
              List.replicate (d + 1 + 1) ("comment") ++ (r0 :: rrest) by
            simp [List.replicate_succ]]
          rw [hrun]
          rfl
        · intro f hf
          rcases List.mem_cons.mp hf with rfl | hf
          · rfl
          · exact hkind f hf
        · rw [show (⟨pos, .comment, slice inp pos (pos + 2)⟩ : Fragment)
              :: fs = [⟨pos, .comment, slice inp pos (pos + 2)⟩] ++ fs
              from rfl,
            joinTexts_append, joinTexts_single, hjoin]
          exact slice_append inp (by omega) hle
      · rw [if_neg hc2] at h
        obtain ⟨n, fs, hrun, hkind, hjoin, hle⟩ :=
          ih (pos + 1) depth q (r0 :: rrest) aux hd hrest h
        obtain ⟨d, rfl⟩ : ∃ d, depth = d + 1 := ⟨depth - 1, by omega⟩
        refine ⟨n + 1, ⟨pos, .comment, slice inp pos (pos + 1)⟩ :: fs,
          ?_, ?_, ?_, by omega⟩
        · rw [show (⟨pos,
              List.replicate (d + 1) ("comment") ++ (r0 :: rrest),
              aux⟩ : Ctx) =
              ⟨pos, ("comment") ::
                (List.replicate d ("comment") ++ (r0 :: rrest)), aux⟩ by
            simp [List.replicate_succ]]
          simp only [iterSteps]
          rw [comment_step_other hlt hget hc1 hc2]
          dsimp only
          rw [show ("comment") ::
              (List.replicate d ("comment") ++ (r0 :: rrest)) =
              List.replicate (d + 1) ("comment") ++ (r0 :: rrest) by
            simp [List.replicate_succ]]
          rw [hrun]
          rfl
        · intro f hf
          rcases List.mem_cons.mp hf with rfl | hf
          · rfl
          · exact hkind f hf
        · rw [show (⟨pos, .comment, slice inp pos (pos + 1)⟩ : Fragment)
              :: fs = [⟨pos, .comment, slice inp pos (pos + 1)⟩] ++ fs
              from rfl,
            joinTexts_append, joinTexts_single, hjoin]
          exact slice_append inp (by omega) hle

/-- C10: within the XQuery `comment` state each `(:` pushes one more
comment level and each `:)` pops exactly one, so whenever the region from
`pos` is balanced — the nesting depth first returns to zero at `q` — the
engine emits only Comment-kind fragments covering exactly `[pos, q)` and
resumes with exactly the states that were active before the comment was
entered.  Concretely, tokenizing `(:a(:b:):)1` from the root state emits
the whole nested comment as Comment fragments and then resumes lexing in
`root` (the digit rule fires). -/
theorem c10_comment_balance :
    (∀ (subFuel fuel : Nat) (inp : List Char) (pos depth q : Nat)
       (rest aux : List String),
       1 ≤ depth → rest ≠ [] →
       commentClose inp fuel pos depth = some q →
       ∃ n fs,
         iterSteps subFuel xqueryTokensPart inp n
             ⟨pos, List.replicate depth ("comment") ++ rest, aux⟩ =
           some (fs, ⟨q, rest, aux⟩) ∧
         (∀ f ∈ fs, f.kind = .comment) ∧
         joinTexts fs = slice inp pos q ∧ pos ≤ q) ∧
    tokenizeF 30 xqueryTokensPart (("(:a(:b:):)1").data) [] =
      ⟨[⟨0, .comment, ("(:").data⟩, ⟨2, .comment, ("a").data⟩,
        ⟨3, .comment, ("(:").data⟩, ⟨5, .comment, ("b").data⟩,
        ⟨6, .comment, (":)").data⟩, ⟨8, .comment, (":)").data⟩,
        ⟨10, .numInteger, ("1").data⟩],
       ⟨11, [("operator"), ("root")], []⟩, true, false⟩ :=
  ⟨fun subFuel fuel inp pos depth q rest aux hd hr h =>
     comment_runs subFuel inp fuel pos depth q rest aux hd hr h,
   by decide⟩

/-- C10 (witness): the balanced-comment theorem applied at a concrete
instance — from the comment state over `ab:)` at depth 1 (prior state
`operator`), the run emits Comment fragments covering the whole region and
resumes in `operator` at position 4. -/
theorem c10_witness :
    (commentClose (("ab:)").data) 9 0 1 = some 4 ∧
      ([("operator")] : List String) ≠ []) ∧
    ∃ n fs,
      iterSteps 5 xqueryTokensPart (("ab:)").data) n
          ⟨0, List.replicate 1 ("comment") ++ [("operator")], []⟩ =
        some (fs, ⟨4, [("operator")], []⟩) ∧
      (∀ f ∈ fs, f.kind = .comment) ∧
      joinTexts fs = slice (("ab:)").data) 0 4 ∧ 0 ≤ 4 :=
  ⟨⟨by decide, by decide⟩,
   c10_comment_balance.1 5 9 (("ab:)").data) 0 1 4 [("operator")] []
     le_rfl (by decide) (by decide)⟩
end PygModel
